import Mathlib

/-!
A verification development for the two-stage shader compiler of this
repository (packages `pyshader` and `python_shader`).

The development shallowly embeds, in Lean, the parts of the Python source
that the verified properties are about:

* the normalized shader bytecode (NSB) operation alphabet,
* the front-end translator's `emit` discipline, loop scaffolding, and the
  three post-processing passes of `pyshader/py.py`
  (`_fix_empty_blocks`, `_fix_or_control_flow`, `_fix_consistent_labels`),
* the back-end generator of `python_shader/_generator_bc.py`: the resource
  slot bookkeeping of `co_resource`, the variable-storage pre-pass of
  `_convert`, the scalar/vector conversion helpers, `co_binop`, and the
  branch-merge bookkeeping of `co_label` / `co_func_end`.

Python exceptions are modelled by an explicit error type; raising is
modelled by `Except.error`.  Machine state that the source mutates
(emitted instruction lists, id pools, slot maps) is passed explicitly.
Python dictionaries keyed by strings are modelled by association lists.
-/

namespace SpirvPy

/-! ## The NSB operation alphabet (spec section 3; emitted by both front ends) -/

/-- A resource slot: an integer location/binding, a builtin name, or a
(bindgroup, binding) pair (Python tuple). -/
inductive Slot
  | int (n : Int)
  | str (s : String)
  | pair (bindgroup binding : Int)
deriving DecidableEq, Repr

/-- The value part of a slot key after the bindgroup has been split off
(`bindgroup, slot = slot` in `co_resource`). -/
inductive SlotVal
  | int (n : Int)
  | str (s : String)
deriving DecidableEq, Repr

/-- Constants carried by `co_load_constant` (ints and bools; Python floats do
not occur in any embedded code path). -/
inductive PyConst
  | int (n : Int)
  | bool (b : Bool)
deriving DecidableEq, Repr

/-- One NSB operation.  Tags mirror the `co_*` method names of
`OpCodeDefinitions`; the tuple `(opcode, *args)` of the Python source is a
constructor application here. -/
inductive Op
  | co_entrypoint (name stage : String) (modes : List (String × List Nat))
  | co_func_end
  | co_resource (name kind : String) (slot : Slot) (typename : String)
  | co_pop_top
  | co_dup_top
  | co_rot_two
  | co_load_name (n : String)
  | co_store_name (n : String)
  | co_load_constant (v : PyConst)
  | co_load_attr (n : String)
  | co_load_index
  | co_store_index
  | co_load_array (n : Nat)
  | co_binary_op (o : String)
  | co_unary_op (o : String)
  | co_compare (c : String)
  | co_call (funcname : String) (nargs : Nat)
  | co_label (l : String)
  | co_branch (l : String)
  | co_branch_conditional (t f : String)
  | co_branch_loop (iter cont merge : String)
  | co_return
deriving DecidableEq, Repr

/-! ## The SpirV type model

`python_shader/_types.py` is not among the provided sources.  Modelled from
the spec: types are values `Scalar(kind, width)` with kind in
bool/int/uint/float, `Vector(length, subtype)`, `Matrix(cols, rows, subtype)`;
interning guarantees structural equality implies identity, so Python `is`
on type classes is structural equality here.  The scalar kinds below are the
ones the embedded code paths touch; `tname` is the class `__name__` used by
the generator for its `startswith("u")` tests. -/

inductive SKind
  | f32
  | i32
  | u32
  | boolean
deriving DecidableEq, Repr

/-- The `__name__` of a scalar type class. -/
def SKind.tname : SKind → String
  | .f32 => "f32"
  | .i32 => "i32"
  | .u32 => "u32"
  | .boolean => "bool"

inductive SType
  | scalar (k : SKind)
  | vector (n : Nat) (k : SKind)
  | matrix (cols rows : Nat) (k : SKind)
deriving DecidableEq, Repr

/-- `issubclass(t, _types.Float)` for a type class `t` (true only for float
scalar classes; vector and matrix classes are not `Float` subclasses). -/
def SType.isFloatClass : SType → Bool
  | .scalar .f32 => true
  | _ => false

/-- `issubclass(t, _types.Int)` (both the signed and the unsigned scalar
integer classes are `Int` subclasses). -/
def SType.isIntClass : SType → Bool
  | .scalar .i32 => true
  | .scalar .u32 => true
  | _ => false

/-- `issubclass(t, _types.boolean)`. -/
def SType.isBoolClass : SType → Bool
  | .scalar .boolean => true
  | _ => false

/-- `issubclass(t, _types.Numeric)`: numeric scalars are the float and
integer scalar classes. -/
def SType.isNumericClass (t : SType) : Bool :=
  t.isFloatClass || t.isIntClass

/-- `issubclass(t, _types.Scalar)`. -/
def SType.isScalarClass : SType → Bool
  | .scalar _ => true
  | _ => false

/-- `issubclass(t, _types.Vector)`. -/
def SType.isVectorClass : SType → Bool
  | .vector _ _ => true
  | _ => false

/-- `issubclass(t, _types.Matrix)`. -/
def SType.isMatrixClass : SType → Bool
  | .matrix _ _ _ => true
  | _ => false

/-- The `.subtype` attribute (vector/matrix element class); scalar classes
have no `subtype` attribute, hence `Option`. -/
def SType.subtype : SType → Option SType
  | .vector _ k => some (.scalar k)
  | .matrix _ _ k => some (.scalar k)
  | .scalar _ => none

/-- The `.length` attribute of a vector class (only read on vectors). -/
def SType.vlength : SType → Nat
  | .vector n _ => n
  | _ => 0

/-- The class `__name__`, as interpolated into error messages and tested
with `startswith("u")`. -/
def SType.tname : SType → String
  | .scalar k => k.tname
  | .vector n k =>
    (match k with
     | .f32 => "vec"
     | .i32 => "ivec"
     | .u32 => "uvec"
     | .boolean => "bvec") ++ toString n
  | .matrix c r _ => "mat" ++ toString c ++ "x" ++ toString r

/-- The distinct `ShaderError` messages of the embedded raise sites, one
constructor per site, carrying the data the Python f-string interpolates. -/
inductive ShaderMsg
  | invalidKind (kind : String)
  | slotTaken (nsid : String) (slot : SlotVal) (name other : String)
  | mergeCount (label : String)
  | forNeedsRange
  | vectorConvertLength
  | cannotConvertToFloat (argType : SType)
  | cannotConvertToInt (argType : SType)
  | cannotConvertToBool (argType : SType)
  | cannotConvertTo (outType : SType)
  | subtypesDiffer (o : String) (tn1 tn2 : String)
  | cannotOpType (o : String) (tn1 : String)
  | scalarVectorFloatOnly (o : String)
  | vectorScalarFloatOnly (o : String)
  | multiplyOnly (o : String) (tn1 tn2 : String)
  | floatOnly (o : String) (tn1 tn2 : String)
  | matMatShape (o : String)
  | matVecShape (tn1 tn2 : String)
  | cannotOpPair (o : String) (tn1 tn2 : String)
  | invalidCompose (argType : SType)
  | packCount (vectorType : SType) (n : Nat)
  | nameTypeConflict (name : String)
deriving DecidableEq, Repr

/-- Errors raised by the embedded code.  `shader` is the library's
`ShaderError`; the other constructors model built-in Python exceptions
(`RuntimeError`, `NameError`, `KeyError`, `IndexError`, `AssertionError`). -/
inductive Err
  | shader (m : ShaderMsg)
  | runtime (msg : String)
  | nameErr (msg : String)
  | keyErr
  | indexErr
  | attrErr
  | assertFail
deriving DecidableEq, Repr

/-! ## Front end: `pyshader/py.py` -/

/-- `opcode.startswith("co_branch")` on an NSB tag: true exactly for
`co_branch`, `co_branch_conditional` and `co_branch_loop`. -/
def branchFamily : Op → Bool
  | .co_branch _ => true
  | .co_branch_conditional _ _ => true
  | .co_branch_loop _ _ _ => true
  | _ => false

/-- `PyBytecode2Bytecode.emit` (pyshader/py.py lines 131-146), restricted to
its effect on `self._opcodes`: appends the operation, after the assertion
`assert not self._opcodes[-1][0].startswith("co_branch")` that guards every
`co_branch` emission (reading `[-1]` of an empty list is an `IndexError`).
The `self._opcode_map` bookkeeping has no effect on the opcode stream and is
not modelled. -/
def emit (ops : List Op) (o : Op) : Except Err (List Op) :=
  match o with
  | .co_branch l =>
    match ops.getLast? with
    | none => .error .indexErr
    | some last =>
      if branchFamily last then .error .assertFail
      else .ok (ops ++ [Op.co_branch l])
  | _ => .ok (ops ++ [o])

/-- The implicit-label step of `PyBytecode2Bytecode._convert`
(pyshader/py.py lines 171-183): when the pointer sits on a registered,
unprotected label, emit `co_branch(label)` first unless the last emitted
operation is already one of `co_branch`, `co_branch_conditional`,
`co_branch_loop`, then emit `co_label(label)`. -/
def implicitLabel (ops : List Op) (label : String) : Except Err (List Op) := do
  let last ← match ops.getLast? with
    | some l => Except.ok l
    | none => Except.error Err.indexErr
  let ops1 ← if branchFamily last then Except.ok ops else emit ops (Op.co_branch label)
  emit ops1 (Op.co_label label)

/-- `possible_types` of `python2shader` (pyshader/py.py line 24 and
python_shader/py.py line 23). -/
def possibleTypes : List String := ["vertex", "fragment", "compute"]

/-- `str.lower()` / `String.toLower`, computed structurally over the
character list (so that kernel reduction can evaluate it). -/
def strLower (s : String) : String :=
  ⟨s.data.map Char.toLower⟩

/-- `str.startswith(pre)` / `String.startsWith`, computed structurally. -/
def strStartsWith (s pre : String) : Bool :=
  pre.data.isPrefixOf s.data

/-- Python's `needle in hay` on character lists: some tail of `hay` starts
with `needle`. -/
def subOccurs (needle : List Char) : List Char → Bool
  | [] => needle.isEmpty
  | c :: t => needle.isPrefixOf (c :: t) || subOccurs needle t

/-- `[t for t in possible_types if t in func.__name__.lower()]`. -/
def detectShaderTypes (funcName : String) : List String :=
  possibleTypes.filter (fun t => subOccurs t.data (strLower funcName).data)

/-- The shader-type detection of `python2shader` (pyshader/py.py lines
23-33; python_shader/py.py lines 22-32 are identical): exactly one of
`vertex`/`fragment`/`compute` must occur in the lowercased function name,
otherwise a `NameError` is raised. -/
def detectShaderType (funcName : String) : Except Err String :=
  match detectShaderTypes funcName with
  | [t] => .ok t
  | [] => .error (.nameErr "Shader entrypoint must contain vertex, fragment or compute to specify shader type.")
  | _ => .error (.nameErr "Ambiguous function name: is it a vert, frag or comp shader?")

/-- The entry emission of `PyBytecode2Bytecode.convert` (pyshader/py.py
lines 82-84; python_shader/py.py lines 60-62 are identical): the entrypoint
is emitted with the literal name `"main"` (`entrypoint_name = "main"`), the
detected shader type, and empty execution modes, before any resource is
processed. -/
def convertEntry (funcName : String) : Except Err (List Op) := do
  let stage ← detectShaderType funcName
  emit [] (Op.co_entrypoint "main" stage [])

/-- A loop record of the front-end pre-scan (`loop_info` dict built by
`_pre_detect_loop`, pyshader/py.py lines 294-332, plus the `range_is_set`
flag set by `_call_function` and the `iter_name` read from the bytecode in
`_start_loop`).  The source-offset label remap is not needed by the
embedded emission sequence. -/
structure LoopInfo where
  ltype : String
  lstart : Nat
  lend : Nat
  first_jump_is_to_end : Bool
  header_label : String
  iter_label : String
  continue_label : String
  body_label : String
  merge_label : String
  range_is_set : Bool
  iter_name : String
deriving DecidableEq, Repr

/-- `PyBytecode2Bytecode._start_loop` (pyshader/py.py lines 866-945),
restricted to its emissions into `self._opcodes`.  For a `for` loop it
requires `range_is_set` (else `ShaderError`), stores the three stacked
range values to the `-step`/`-stop`/`-start` slots, initializes the
iteration variable, and emits the loop header/iter/body scaffolding; for a
`while` loop it emits the same skeleton without iter initialization, with
the iter block synthesized explicitly only when the loop's first jump does
not already exit to the merge block. -/
def startLoop (ops : List Op) (li : LoopInfo) : Except Err (List Op) :=
  if li.ltype = "for" then do
    if !li.range_is_set then
      throw (Err.shader ShaderMsg.forNeedsRange)
    let n := li.iter_name
    let ops ← emit ops (Op.co_store_name (n ++ "-step"))
    let ops ← emit ops (Op.co_store_name (n ++ "-stop"))
    let ops ← emit ops (Op.co_store_name (n ++ "-start"))
    let ops ← emit ops (Op.co_load_name (n ++ "-start"))
    let ops ← emit ops (Op.co_store_name n)
    let ops ← emit ops (Op.co_branch li.header_label)
    let ops ← emit ops (Op.co_label li.header_label)
    let ops ← emit ops (Op.co_branch_loop li.iter_label li.continue_label li.merge_label)
    let ops ← emit ops (Op.co_label li.iter_label)
    let ops ← emit ops (Op.co_load_name n)
    let ops ← emit ops (Op.co_load_name (n ++ "-stop"))
    let ops ← emit ops (Op.co_compare "<")
    let ops ← emit ops (Op.co_branch_conditional li.body_label li.merge_label)
    emit ops (Op.co_label li.body_label)
  else if li.ltype = "while" then do
    let ops ← emit ops (Op.co_branch li.header_label)
    let ops ← emit ops (Op.co_label li.header_label)
    let ops ← emit ops (Op.co_branch_loop li.iter_label li.continue_label li.merge_label)
    let ops ← emit ops (Op.co_label li.iter_label)
    if li.first_jump_is_to_end then
      pure ops
    else do
      let ops ← emit ops (Op.co_load_constant (PyConst.bool true))
      let ops ← emit ops (Op.co_branch_conditional li.body_label li.merge_label)
      emit ops (Op.co_label li.body_label)
  else
    throw (Err.runtime "invalid loop type")

/-! ### The post-processing passes (pyshader/py.py lines 334-469)

`labels_to_replace` is a Python dict from old label to new label; here an
association list with distinct keys (entries are only added for keys that
are absent, and updated in place otherwise). -/

/-- Label-replacement dictionary. -/
abbrev LMap := List (String × String)

/-- Dict lookup. -/
def lmLookup : LMap → String → Option String
  | [], _ => none
  | (k, v) :: t, x => if k = x then some v else lmLookup t x

/-- Dict assignment `m[k] = v` (overwrite in place, else append). -/
def lmSet : LMap → String → String → LMap
  | [], k, v => [(k, v)]
  | (k', v') :: t, k, v => if k' = k then (k', v) :: t else (k', v') :: lmSet t k v

/-- `_set_new_label` (pyshader/py.py lines 369-372 and 456-459): follow the
existing replacement chain from `label` and bind the reached end to
`newLabel`.  The Python `while` loop diverges on a cyclic chain; the fuel
(called with one more than the dict size, enough for any acyclic chain)
makes divergence return `none`. -/
def setNewLabel : Nat → LMap → String → String → Option LMap
  | 0, _, _, _ => none
  | fuel + 1, m, label, newLabel =>
    match lmLookup m label with
    | some next => setNewLabel fuel m next newLabel
    | none => some (lmSet m label newLabel)

/-- One check of the `_fix_empty_blocks` scan at index `i` (pyshader/py.py
lines 374-382): if `ops[i]` is `co_label(L)`, `ops[i+1]` is `co_branch(M)`
and `L` is not protected, record `L -> M` and pop both operations.  Reading
`ops[i+1]` past the end is the `IndexError` Python would raise (it can
happen when a removal at the end of the list cascades). -/
def ebStep (protected_ : List String) (ops : List Op) (m : LMap) (i : Nat) :
    Option (List Op × LMap) :=
  match ops[i]? with
  | some (.co_label L) =>
    match ops[i + 1]? with
    | none => none
    | some (.co_branch M) =>
      if L ∈ protected_ then some (ops, m)
      else
        match setNewLabel (m.length + 1) m L M with
        | none => none
        | some m' => some (ops.take i ++ ops.drop (i + 2), m')
    | some _ => some (ops, m)
  | _ => some (ops, m)

/-- The scan loop `for i in reversed(range(len(self._opcodes) - 1))` of
`_fix_empty_blocks`: indices from high to low down to 0. -/
def ebLoop (protected_ : List String) : Nat → List Op → LMap → Option (List Op × LMap)
  | 0, ops, m => ebStep protected_ ops m 0
  | i + 1, ops, m => do
    let (ops', m') ← ebStep protected_ ops m (i + 1)
    ebLoop protected_ i ops' m'

/-- The removal scan of `_fix_empty_blocks` (before `_replace_labels` is
applied); returns the surviving operations and the replacement dict. -/
def ebScan (protected_ : List String) (ops : List Op) : Option (List Op × LMap) :=
  if ops.length ≤ 1 then some (ops, [])
  else ebLoop protected_ (ops.length - 2) ops []

/-- One key's resolution loop in `_replace_labels` (pyshader/py.py lines
337-339): `while m[key] in m: m[key] = m[m[key]]`.  Fueled for the same
reason as `setNewLabel`. -/
def resolveKey : Nat → LMap → String → Option LMap
  | 0, _, _ => none
  | fuel + 1, m, key =>
    match lmLookup m key with
    | none => some m
    | some v =>
      match lmLookup m v with
      | none => some m
      | some w => resolveKey fuel (lmSet m key w) key

/-- The recursion-resolution prologue of `_replace_labels`: resolve every
key of the dict, in insertion order. -/
def resolveAll (m : LMap) : Option LMap :=
  (m.map Prod.fst).foldlM (fun acc k => resolveKey (acc.length + 1) acc k) m

/-- Replace one label reference through the (resolved) dict. -/
def replaceLabel (m : LMap) (l : String) : String :=
  match lmLookup m l with
  | some v => v
  | none => l

/-- The per-operation rewrite of `_replace_labels` (pyshader/py.py lines
341-357): label arguments of `co_label`, `co_branch`,
`co_branch_conditional` and `co_branch_loop` operations are rewritten
through the dict; all other operations are untouched. -/
def sweepOp (m : LMap) (o : Op) : Op :=
  match o with
  | .co_label l => .co_label (replaceLabel m l)
  | .co_branch l => .co_branch (replaceLabel m l)
  | .co_branch_conditional a b =>
    .co_branch_conditional (replaceLabel m a) (replaceLabel m b)
  | .co_branch_loop a b c =>
    .co_branch_loop (replaceLabel m a) (replaceLabel m b) (replaceLabel m c)
  | x => x

/-- The replacement sweep over the whole opcode list. -/
def replaceSweep (m : LMap) (ops : List Op) : List Op :=
  ops.map (sweepOp m)

/-- `_replace_labels` (pyshader/py.py lines 334-357). -/
def _replace_labels (m : LMap) (ops : List Op) : Option (List Op × LMap) := do
  let m' ← resolveAll m
  some (replaceSweep m' ops, m')

/-- `_fix_empty_blocks` (pyshader/py.py lines 359-384), also returning the
resolved replacement dict, whose keys are exactly the removed labels. -/
def _fix_empty_blocks (protected_ : List String) (ops : List Op) :
    Option (List Op × LMap) := do
  let (ops', m) ← ebScan protected_ ops
  _replace_labels m ops'

/-- The dict `conditional_branches` of `_get_block_to_resolve`: label ->
(the other label of the conditional branch, its opcode index). -/
abbrev CBMap := List (String × (String × Nat))

/-- Dict lookup for `conditional_branches`. -/
def cbLookup : CBMap → String → Option (String × Nat)
  | [], _ => none
  | (k, v) :: t, x => if k = x then some v else cbLookup t x

/-- Dict assignment for `conditional_branches` (overwriting is allowed and
does happen, as the source comment notes). -/
def cbSet : CBMap → String → String × Nat → CBMap
  | [], k, v => [(k, v)]
  | (k', v') :: t, k, v => if k' = k then (k', v) :: t else (k', v') :: cbSet t k v

/-- The scan of `_get_block_to_resolve` (pyshader/py.py lines 396-417):
walk the opcodes tracking the current block label; at each conditional
branch, if one of its two target labels was registered by an earlier
conditional branch whose *other* target is the current block, return
`(earlier index, current label index, this index)`; otherwise register both
targets and continue. -/
def getBlockAux : List Op → Nat → Option String → Nat → CBMap → Option (Nat × Nat × Nat)
  | [], _, _, _, _ => none
  | o :: rest, i, cur, curI, m =>
    match o with
    | .co_label l => getBlockAux rest (i + 1) (some l) i m
    | .co_branch_conditional a b =>
      let reg := cbSet (cbSet m a (b, i)) b (a, i)
      match cbLookup m a with
      | some (other, ii) =>
        if cur = some other then some (ii, curI, i)
        else getBlockAux rest (i + 1) cur curI reg
      | none =>
        match cbLookup m b with
        | some (other, ii) =>
          if cur = some other then some (ii, curI, i)
          else getBlockAux rest (i + 1) cur curI reg
        | none => getBlockAux rest (i + 1) cur curI reg
    | _ => getBlockAux rest (i + 1) cur curI m

/-- `_get_block_to_resolve` of `_fix_or_control_flow`. -/
def _get_block_to_resolve (ops : List Op) : Option (Nat × Nat × Nat) :=
  getBlockAux ops 0 none 0 []

/-- One rewrite of `_fix_or_control_flow` (pyshader/py.py lines 423-447):
cut out the block between the matched conditional branches, combine its
condition with the first one through the four-case policy table, and splice
the combined block in place of the first conditional branch. -/
def orRewrite (ops : List Op) (b : Nat × Nat × Nat) : List Op :=
  match b with
  | (i_ins, i_label, i_cond) =>
    match ops[i_ins]?, ops[i_cond]? with
    | some (.co_branch_conditional a1 b1), some (.co_branch_conditional a2 b2) =>
      let selection := (ops.drop (i_label + 1)).take (i_cond - (i_label + 1))
      let removed := ops.take i_label ++ ops.drop (i_cond + 1)
      let selection :=
        if a1 = a2 then
          selection ++ [Op.co_binary_op "or", Op.co_branch_conditional a1 b2]
        else if a1 = b2 then
          selection ++ [Op.co_unary_op "not", Op.co_binary_op "or",
            Op.co_branch_conditional a1 a2]
        else if b1 = a2 then
          Op.co_unary_op "not" :: selection ++ [Op.co_binary_op "or",
            Op.co_branch_conditional b1 b2]
        else if b1 = b2 then
          selection ++ [Op.co_binary_op "and", Op.co_unary_op "not",
            Op.co_branch_conditional b1 a2]
        else selection
      removed.take i_ins ++ selection ++ removed.drop (i_ins + 1)
    | _, _ => ops

/-- `_fix_or_control_flow` (pyshader/py.py lines 386-447): rewrite matched
blocks until `_get_block_to_resolve` finds none.  The Python `while True`
loop is fueled; `none` models divergence. -/
def _fix_or_control_flow : Nat → List Op → Option (List Op)
  | 0, _ => none
  | fuel + 1, ops =>
    match _get_block_to_resolve ops with
    | none => some ops
    | some b => _fix_or_control_flow fuel (orRewrite ops b)

/-! ## Back end: `python_shader/_generator_bc.py` -/

/-! ### Resource slot bookkeeping (`co_resource`, lines 257-306)

The embedded function covers the slot-claiming phase of `co_resource`: the
bindgroup split, the kind triage (whose failure raises `ShaderError` before
the slot is examined), the namespace choice, and the `self._slotmap` check
and update.  The remaining body of `co_resource` (type resolution, variable
creation, decorations) never touches `self._slotmap` and raises only other
errors. -/

/-- A `resource` declaration as the NSB carries it. -/
structure RDecl where
  name : String
  kind : String
  slot : Slot
  typename : String
deriving DecidableEq, Repr

/-- `self._slotmap`: (namespace identifier, slot) -> name. -/
abbrev Slotmap := List ((String × SlotVal) × String)

/-- Dict lookup on the slot map. -/
def smLookup : Slotmap → String × SlotVal → Option String
  | [], _ => none
  | (k, v) :: t, x => if k = x then some v else smLookup t x

/-- `bindgroup = 0; if isinstance(slot, tuple): bindgroup, slot = slot`. -/
def splitSlot : Slot → Int × SlotVal
  | .int n => (0, .int n)
  | .str s => (0, .str s)
  | .pair g b => (g, .int b)

/-- The six valid resource kinds of the `co_resource` triage. -/
def validKinds : List String :=
  ["input", "output", "uniform", "buffer", "sampler", "texture"]

/-- The namespace identifier of the slot key: locations are unique per
`input`/`output` kind, bindings are unique within a bind group. -/
def namespaceId (kind : String) (bindgroup : Int) : String :=
  if kind = "input" || kind = "output" then kind
  else "bindgroup-" ++ toString bindgroup

/-- The slot key a declaration claims (assuming a valid kind). -/
def slotKey (d : RDecl) : String × SlotVal :=
  let (bindgroup, slot) := splitSlot d.slot
  (namespaceId d.kind bindgroup, slot)

/-- The slot-claiming phase of `co_resource` (lines 257-306): split the
bindgroup off the slot, triage the kind (raising `ShaderError` for an
invalid kind), and claim the `(namespace, slot)` key in the slot map,
raising `ShaderError` if it is already taken. -/
def co_resource_slots (m : Slotmap) (d : RDecl) : Except Err Slotmap :=
  let (bindgroup, slot) := splitSlot d.slot
  if d.kind ∈ validKinds then
    let nsid := namespaceId d.kind bindgroup
    let key := (nsid, slot)
    match smLookup m key with
    | some other => .error (.shader (.slotTaken nsid slot d.name other))
    | none => .ok (m ++ [(key, d.name)])
  else
    .error (.shader (.invalidKind d.kind))

/-- Processing the resource declarations of one NSB program in order,
threading the slot map; stops at the first error (Python raises). -/
def processResources (ds : List RDecl) : Except Err Slotmap :=
  ds.foldlM co_resource_slots []

/-! ### The variable-storage pre-pass (`_convert`, lines 77-99) -/

/-- A dict from string keys to string sets, modelling
`saved_in_blocks` / `_need_name_var_save` / `_need_name_var_load`
(`dict` of `set`; a set is a duplicate-free list here). -/
abbrev SetMap := List (String × List String)

/-- Set insertion (`set.add`). -/
def listAdd (xs : List String) (v : String) : List String :=
  if v ∈ xs then xs else xs ++ [v]

/-- `m.setdefault(k, set()).add(v)`. -/
def mapAdd : SetMap → String → String → SetMap
  | [], k, v => [(k, [v])]
  | (k', vs) :: t, k, v =>
    if k' = k then (k', listAdd vs v) :: t else (k', vs) :: mapAdd t k v

/-- `m.get(k, ())` / `m.get(k, set())`. -/
def mapGet : SetMap → String → List String
  | [], _ => []
  | (k', vs) :: t, k => if k' = k then vs else mapGet t k

/-- The mutable state of the pre-pass loop. -/
structure PrepassState where
  cur : String
  saved : SetMap
  needSave : SetMap
  needLoad : SetMap
deriving DecidableEq, Repr

/-- One iteration of the pre-pass loop (lines 81-99): labels move the
current block; stores record the current block for the name; a load whose
name was already stored in at least two blocks, none of which is the
current block, adds the name to the current block's load set and to every
recorded store block's save set. -/
def prepassStep (st : PrepassState) (o : Op) : PrepassState :=
  match o with
  | .co_label l => { st with cur := l }
  | .co_store_name n => { st with saved := mapAdd st.saved n st.cur }
  | .co_load_name n =>
    let blocks := mapGet st.saved n
    if st.cur ∈ blocks then st
    else if blocks.length ≤ 1 then st
    else
      { st with
        needLoad := mapAdd st.needLoad st.cur n
        needSave := blocks.foldl (fun acc b => mapAdd acc b n) st.needSave }
  | _ => st

/-- The pre-pass over the NSB (lines 77-99): computes
`_need_name_var_save` and `_need_name_var_load`. -/
def prepass (ops : List Op) : PrepassState :=
  ops.foldl prepassStep ⟨"", [], [], []⟩

/-- One step of tracking the current block label. -/
def curStep (acc : String) (o : Op) : String :=
  match o with
  | .co_label l => l
  | _ => acc

/-- The block label in effect after a list of operations (the value of
`cur_block_label`, initially the empty string). -/
def lastLabel (ops : List Op) : String :=
  ops.foldl curStep ""

/-- One step of tracking the blocks in which the name `n` is stored (the
pair carries the running block label and the block set). -/
def storeStep (n : String) (st : String × List String) (o : Op) :
    String × List String :=
  match o with
  | .co_label l => (l, st.2)
  | .co_store_name m => if m = n then (st.1, listAdd st.2 st.1) else st
  | _ => st

/-- The distinct block labels in which `n` is stored, over a list of
operations (the value `saved_in_blocks.get(n)` would have at its end). -/
def storeBlocks (ops : List Op) (n : String) : List String :=
  (ops.foldl (storeStep n) ("", [])).2

/-- The promotion condition as the pre-pass applies it: some load of `n`
occurs in block `L` at a moment when `n` has already been stored in at
least two distinct blocks, none of which is `L`. -/
def promotedLoad (ops : List Op) (n L : String) : Prop :=
  ∃ p q, ops = p ++ Op.co_load_name n :: q ∧ lastLabel p = L ∧
    L ∉ storeBlocks p n ∧ 2 ≤ (storeBlocks p n).length

/-- The save-set condition: block `B` holds one of the earlier stores of a
promoted load of `n`. -/
def promotedStore (ops : List Op) (n B : String) : Prop :=
  ∃ p q, ops = p ++ Op.co_load_name n :: q ∧ lastLabel p ∉ storeBlocks p n ∧
    2 ≤ (storeBlocks p n).length ∧ B ∈ storeBlocks p n

/-! ### `co_load_name`, local-name branch (lines 502-513)

Only the branch taken when the name is a known local (`name in
self._name_ids`) is embedded; the later `elif` branches handle resource
names and types and are never reached for such names.  `resolve_load` lives
in `_generator_base.py`, which is not among the provided sources.
Modelled from the spec: an access handle "lazily resolves to a load when
consumed", so resolving the function variable emits one load instruction
yielding a fresh id. -/

/-- A load instruction emitted by a resolved variable access (modelled
from the spec; `_generator_base.py` is not in the sources). -/
structure LoadInstr where
  varId : Nat
  resultId : Nat
deriving DecidableEq, Repr

/-- Dict from names to ids (`_name_ids` / `_name_variables`). -/
abbrev IdMap := List (String × Nat)

/-- Dict lookup on an id map. -/
def imLookup : IdMap → String → Option Nat
  | [], _ => none
  | (k, v) :: t, x => if k = x then some v else imLookup t x

/-- The per-name state `co_load_name` consults. -/
structure LoadState where
  name_ids : IdMap
  name_variables : IdMap
  needLoad : SetMap
  curLabel : String
  nextId : Nat
  loads : List LoadInstr
deriving DecidableEq, Repr

/-- Remove one element from a set (`set.discard`). -/
def listDiscard (xs : List String) (v : String) : List String :=
  xs.filter (fun x => x ≠ v)

/-- Update the set stored under a key (used for the in-place `discard`). -/
def mapPut : SetMap → String → List String → SetMap
  | [], k, vs => [(k, vs)]
  | (k', vs') :: t, k, vs =>
    if k' = k then (k', vs) :: t else (k', vs') :: mapPut t k vs

/-- The local-name branch of `co_load_name` (lines 502-513): if the current
block's load set contains the name, resolve a load from the name's function
variable, record the fresh id and discard the name from the set; otherwise
the last SSA id recorded in `_name_ids` is reused and nothing is emitted.
Returns `none` when the branch guard `name in self._name_ids` fails. -/
def co_load_name_local (st : LoadState) (name : String) : Option (Nat × LoadState) :=
  match imLookup st.name_ids name with
  | none => none
  | some vid =>
    let names := mapGet st.needLoad st.curLabel
    if name ∈ names then
      match imLookup st.name_variables name with
      | none => none
      | some var =>
        let fresh := st.nextId
        some (fresh,
          { st with
            nextId := st.nextId + 1
            loads := st.loads ++ [⟨var, fresh⟩]
            name_ids := (name, fresh) ::
              st.name_ids.filter (fun kv => kv.1 ≠ name)
            needLoad := mapPut st.needLoad st.curLabel (listDiscard names name) })
    else
      some (vid, st)

/-! ### The instruction-emitting generator state (for the conversion and
binary-operator handlers)

`BaseSpirVGenerator` (`_generator_base.py`) is not among the provided
sources.  Modelled from the spec: the id pool allocates fresh ids; the type
registry interns types (structural equality implies one id per type); the
constant pool interns literal constants per type; `gen_func_instruction`
appends one instruction to the function section.  Instruction operands are
flattened to their id/literal words. -/

/-- The SpirV opcodes the embedded handlers emit. -/
inductive SpvOp
  | FConvert
  | ConvertUToF
  | ConvertSToF
  | ConvertFToU
  | ConvertFToS
  | UConvert
  | SConvert
  | Select
  | FOrdNotEqual
  | INotEqual
  | FAdd
  | FSub
  | FMul
  | FDiv
  | IAdd
  | ISub
  | IMul
  | LogicalAnd
  | LogicalOr
  | VectorTimesScalar
  | MatrixTimesMatrix
  | MatrixTimesScalar
  | MatrixTimesVector
  | VectorTimesMatrix
  | CompositeConstruct
  | CompositeExtract
deriving DecidableEq, Repr

/-- A `ValueId`: a concrete result id together with its type. -/
structure Val where
  id : Nat
  type : SType
deriving DecidableEq, Repr

/-- Generator state: the id pool, the interned types and constants, and the
emitted function instructions. -/
structure GenState where
  nextId : Nat
  types : List (SType × Nat)
  consts : List ((SType × Int) × Nat)
  instrs : List (SpvOp × List Nat)
deriving DecidableEq, Repr

/-- Association-list lookup with `Nat` values. -/
def alLookup {α : Type} [DecidableEq α] : List (α × Nat) → α → Option Nat
  | [], _ => none
  | (k, v) :: t, x => if k = x then some v else alLookup t x

/-- The generator monad: state threading plus raising. -/
abbrev Gen (α : Type) : Type := StateT GenState (Except Err) α

/-- Raise an error in the generator monad. -/
def raiseG {α : Type} (e : Err) : Gen α := fun _ => .error e

/-- Raise, at the unit type (for raise statements inside `do` blocks). -/
def raiseU (e : Err) : Gen Unit := raiseG e

/-- Raise, at the bool type. -/
def raiseB (e : Err) : Gen Bool := raiseG e

/-- `obtain_type_id`: intern a type, allocating a fresh id on first use. -/
def obtain_type_id (t : SType) : Gen Nat := do
  let st ← get
  match alLookup st.types t with
  | some i => pure i
  | none =>
    let i := st.nextId
    set { st with nextId := i + 1, types := st.types ++ [(t, i)] }
    pure i

/-- `obtain_value`: a fresh `ValueId` of the given type together with the
type's id. -/
def obtain_value (t : SType) : Gen (Val × Nat) := do
  let tid ← obtain_type_id t
  let st ← get
  let i := st.nextId
  set { st with nextId := i + 1 }
  pure (⟨i, t⟩, tid)

/-- `obtain_constant`: intern a literal constant per type. -/
def obtain_constant (v : Int) (t : SType) : Gen Nat := do
  let st ← get
  match alLookup st.consts (t, v) with
  | some i => pure i
  | none =>
    let i := st.nextId
    set { st with nextId := i + 1, consts := st.consts ++ [((t, v), i)] }
    pure i

/-- `gen_func_instruction`: append one instruction to the function
section. -/
def gen_func_instruction (o : SpvOp) (args : List Nat) : Gen Unit := do
  let st ← get
  set { st with instrs := st.instrs ++ [(o, args)] }

/-- `_convert_scalar_or_vector` (lines 1039-1104).  The branches mirror the
source; note that in the two integer-output branches the source computes
the signed/unsigned opcode into a local `op` but then emits the hard-coded
`cc.OpConvertFToS` (line 1075) resp. `cc.OpSConvert` (line 1078); the
computed local is dead there, and is bound to an unused `_op` here.  In the
float-output/integer-input branch (lines 1061-1062) the computed opcode
*is* the emitted one. -/
def _convert_scalar_or_vector (out_type out_el_type : SType) (arg : Val)
    (arg_el_type : SType) : Gen Val := do
  if out_type ≠ out_el_type then
    if !(out_el_type.isNumericClass && arg_el_type.isNumericClass) then
      raiseU .assertFail
  if arg.type = out_type then
    pure arg
  else do
    let (result, type_id) ← obtain_value out_type
    let argtname := arg_el_type.tname
    let outtname := out_el_type.tname
    if out_el_type.isFloatClass then
      if arg_el_type.isFloatClass then do
        gen_func_instruction .FConvert [type_id, result.id, arg.id]
        pure result
      else if arg_el_type.isIntClass then do
        let op := if strStartsWith argtname "u" then SpvOp.ConvertUToF else SpvOp.ConvertSToF
        gen_func_instruction op [type_id, result.id, arg.id]
        pure result
      else if arg_el_type.isBoolClass then do
        let zeroId ← obtain_constant 0 out_el_type
        let oneId ← obtain_constant 1 out_el_type
        gen_func_instruction .Select [type_id, result.id, arg.id, oneId, zeroId]
        pure result
      else
        raiseG (.shader (.cannotConvertToFloat arg.type))
    else if out_el_type.isIntClass then
      if arg_el_type.isFloatClass then do
        let _op := if strStartsWith outtname "u" then SpvOp.ConvertFToU else SpvOp.ConvertFToS
        gen_func_instruction .ConvertFToS [type_id, result.id, arg.id]
        pure result
      else if arg_el_type.isIntClass then do
        let _op := if strStartsWith outtname "u" then SpvOp.UConvert else SpvOp.SConvert
        gen_func_instruction .SConvert [type_id, result.id, arg.id]
        pure result
      else if arg_el_type.isBoolClass then do
        let zeroId ← obtain_constant 0 out_type
        let oneId ← obtain_constant 1 out_type
        gen_func_instruction .Select [type_id, result.id, arg.id, oneId, zeroId]
        pure result
      else
        raiseG (.shader (.cannotConvertToInt arg.type))
    else if out_el_type.isBoolClass then
      if arg_el_type.isFloatClass then do
        let zeroId ← obtain_constant 0 arg_el_type
        gen_func_instruction .FOrdNotEqual [type_id, result.id, arg.id, zeroId]
        pure result
      else if arg_el_type.isIntClass then do
        let zeroId ← obtain_constant 0 arg_el_type
        gen_func_instruction .INotEqual [type_id, result.id, arg.id, zeroId]
        pure result
      else if arg_el_type.isBoolClass then
        pure arg
      else
        raiseG (.shader (.cannotConvertToBool arg.type))
    else
      raiseG (.shader (.cannotConvertTo out_type))

/-- `_convert_scalar` (lines 1027-1028). -/
def _convert_scalar (out_type : SType) (arg : Val) : Gen Val :=
  _convert_scalar_or_vector out_type out_type arg arg.type

/-- `_convert_numeric_vector` (lines 1030-1037). -/
def _convert_numeric_vector (out_type : SType) (arg : Val) : Gen Val := do
  if !(arg.type.isVectorClass && arg.type.vlength == out_type.vlength) then
    raiseG (.shader .vectorConvertLength)
  else
    match out_type.subtype, arg.type.subtype with
    | some os, some as_ => _convert_scalar_or_vector out_type os arg as_
    | _, _ => raiseG .attrErr

/-- The deconstruction loop body of `_vector_packing` (lines 1120-1140):
scalar arguments are converted to the element type when needed; vector
arguments are taken apart with `CompositeExtract` (converting each
component when needed); anything else raises. -/
def packDeconstruct (t : SType) (acc : List Nat) (arg : Val) : Gen (List Nat) := do
  if arg.type.isScalarClass then do
    let comp ← if arg.type ≠ t then _convert_scalar t arg else pure arg
    pure (acc ++ [comp.id])
  else if arg.type.isVectorClass then
    match arg.type with
    | .vector n k =>
      (List.range n).foldlM
        (fun (ids : List Nat) i => do
          let (comp, ctid) ← obtain_value (SType.scalar k)
          gen_func_instruction .CompositeExtract [ctid, comp.id, arg.id, i]
          let comp ← if SType.scalar k ≠ t then _convert_scalar t comp else pure comp
          pure (ids ++ [comp.id]))
        acc
    | _ => raiseG .attrErr
  else
    raiseG (.shader (.invalidCompose arg.type))

/-- The general (deconstruct-and-construct) path of `_vector_packing`
(lines 1116-1158). -/
def packGeneral (vector_type : SType) (args : List Val) : Gen Val := do
  match vector_type with
  | .vector n k => do
    let t := SType.scalar k
    let composite_ids ← args.foldlM (packDeconstruct t) []
    if composite_ids.length ≠ n then
      raiseG (.shader (.packCount vector_type composite_ids.length))
    else if composite_ids.length < 2 then
      raiseG .assertFail
    else do
      let (result, vtid) ← obtain_value vector_type
      gen_func_instruction .CompositeConstruct ([vtid, result.id] ++ composite_ids)
      pure result
  | _ => raiseG .attrErr

/-- `_vector_packing` (lines 1106-1158): a single argument whose element
type and the target element type are both numeric is converted elementwise
(lines 1109-1114; reading `.subtype` of a scalar class is an
`AttributeError`); otherwise the general path runs. -/
def _vector_packing (vector_type : SType) (args : List Val) : Gen Val := do
  match args with
  | [arg] => do
    let single ←
      match vector_type.subtype with
      | none => raiseB .attrErr
      | some vs =>
        if vs.isNumericClass then
          match arg.type.subtype with
          | none => raiseB .attrErr
          | some as_ => pure as_.isNumericClass
        else
          pure false
    if single then
      _convert_numeric_vector vector_type arg
    else
      packGeneral vector_type args
  | _ => packGeneral vector_type args

/-- `FOPS` (line 728). -/
def FOPS (o : String) : Option SpvOp :=
  if o = "add" then some .FAdd
  else if o = "sub" then some .FSub
  else if o = "mul" then some .FMul
  else if o = "div" then some .FDiv
  else none

/-- `IOPS` (line 729). -/
def IOPS (o : String) : Option SpvOp :=
  if o = "add" then some .IAdd
  else if o = "sub" then some .ISub
  else if o = "mul" then some .IMul
  else none

/-- `LOPS` (line 730). -/
def LOPS (o : String) : Option SpvOp :=
  if o = "and" then some .LogicalAnd
  else if o = "or" then some .LogicalOr
  else none

/-- Python dict indexing `d[o]`: a missing key raises `KeyError`. -/
def dictGet (d : String → Option SpvOp) (o : String) : Gen SpvOp :=
  match d o with
  | some x => pure x
  | none => raiseG .keyErr

/-- `reftype` of a value type (lines 733-740): the subtype class for
vectors and matrices, the type itself otherwise. -/
def refClass : SType → SType
  | .vector _ k => .scalar k
  | .matrix _ _ k => .scalar k
  | s => s

/-- `.cols` of a matrix class. -/
def SType.mcols : SType → Nat
  | .matrix c _ _ => c
  | _ => 0

/-- `.rows` of a matrix class. -/
def SType.mrows : SType → Nat
  | .matrix _ r _ => r
  | _ => 0

/-- The element kind of a vector/matrix/scalar type. -/
def SType.ekind : SType → SKind
  | .scalar k => k
  | .vector _ k => k
  | .matrix _ _ k => k

/-- `co_binop` (lines 718-845), after the two stack pops: `val2` is the top
of the stack, `val1` below it.  The branch structure, the operand-id
reassignments (`id1, id2 = ...`) and the single final
`gen_func_instruction(opcode, type_id, result_id, id1, id2)` mirror the
source, including the duplicated (hence dead) Matrix x Scalar branch of
lines 819-823. -/
def co_binop (o : String) (val1 val2 : Val) : Gen Val := do
  let type1 := val1.type
  let reftype1 := refClass type1
  let type2 := val2.type
  let reftype2 := refClass type2
  let tn1 := type1.tname
  let tn2 := type2.tname
  let (result, type_id, opcode, id1, id2) ←
    if reftype1 ≠ reftype2 then
      raiseG (.shader (.subtypesDiffer o tn1 tn2))
    else if type1 == type2 && (type1.isScalarClass || type1.isVectorClass) then do
      let (result, type_id) ← obtain_value type1
      let opcode ←
        if reftype1.isFloatClass then dictGet FOPS o
        else if reftype1.isIntClass then dictGet IOPS o
        else if reftype1.isBoolClass then dictGet LOPS o
        else raiseG (.shader (.cannotOpType o tn1))
      pure (result, type_id, opcode, val1.id, val2.id)
    else if type1.isScalarClass && type2.isVectorClass then do
      if !reftype1.isFloatClass then
        raiseU (.shader (.scalarVectorFloatOnly o))
      let (result, type_id) ← obtain_value type2
      if o = "mul" then
        pure (result, type_id, SpvOp.VectorTimesScalar, val2.id, val1.id)
      else do
        let opcode ← dictGet FOPS o
        let val3 ← _vector_packing type2 (List.replicate type2.vlength val1)
        pure (result, type_id, opcode, val1.id, val3.id)
    else if type1.isVectorClass && type2.isScalarClass then do
      if !reftype1.isFloatClass then
        raiseU (.shader (.vectorScalarFloatOnly o))
      let (result, type_id) ← obtain_value type1
      if o = "mul" then
        pure (result, type_id, SpvOp.VectorTimesScalar, val1.id, val2.id)
      else do
        let opcode ← dictGet FOPS o
        let val3 ← _vector_packing type1 (List.replicate type1.vlength val2)
        pure (result, type_id, opcode, val1.id, val3.id)
    else if o ≠ "mul" then
      raiseG (.shader (.multiplyOnly o tn1 tn2))
    else if !reftype1.isFloatClass then
      raiseG (.shader (.floatOnly o tn1 tn2))
    else if type1.isMatrixClass && type2.isMatrixClass then do
      if type1.mcols ≠ type2.mrows then
        raiseU (.shader (.matMatShape o))
      let type3 := SType.matrix type2.mcols type1.mrows type1.ekind
      let (result, type_id) ← obtain_value type3
      pure (result, type_id, SpvOp.MatrixTimesMatrix, val1.id, val2.id)
    else if type1.isMatrixClass && type2.isScalarClass then do
      let (result, type_id) ← obtain_value type1
      pure (result, type_id, SpvOp.MatrixTimesScalar, val1.id, val2.id)
    else if type1.isMatrixClass && type2.isScalarClass then do
      let (result, type_id) ← obtain_value type2
      pure (result, type_id, SpvOp.MatrixTimesScalar, val2.id, val1.id)
    else if type1.isMatrixClass && type2.isVectorClass then do
      if type2.vlength ≠ type1.mcols then
        raiseU (.shader (.matVecShape tn1 tn2))
      let type3 := SType.vector type1.mrows type1.ekind
      let (result, type_id) ← obtain_value type3
      pure (result, type_id, SpvOp.MatrixTimesVector, val1.id, val2.id)
    else if type1.isVectorClass && type2.isMatrixClass then do
      if type1.vlength ≠ type2.mrows then
        raiseU (.shader (.matVecShape tn1 tn2))
      let type3 := SType.vector type2.mcols type2.ekind
      let (result, type_id) ← obtain_value type3
      pure (result, type_id, SpvOp.VectorTimesMatrix, val1.id, val2.id)
    else
      raiseG (.shader (.cannotOpPair o tn1 tn2))
  gen_func_instruction opcode [type_id, result.id, id1, id2]
  pure result

/-! ### Structural-error sites (for `co_func_end`, `co_label`, dispatch) -/

/-- The branch tree (spec section 3): leaves are open branches carrying
their current label; internal nodes are conditionals whose two sides are
still open.  Parent links and depths of the Python dict representation are
implicit in the tree shape. -/
inductive BTree
  | leaf (label : String)
  | node (label : String) (c1 c2 : BTree)
deriving DecidableEq, Repr

/-- The merge loop of `co_label` (lines 920-942): repeatedly pick a node
whose two children both reached label `L` and merge them into the parent,
deepest first.  Merging deepest-first is bottom-up contraction of every
node whose children have both become label-`L` leaves. -/
def contractAll (L : String) : BTree → BTree
  | .leaf l => .leaf l
  | .node lb c1 c2 =>
    let c1' := contractAll L c1
    let c2' := contractAll L c2
    if c1' = BTree.leaf L && c2' = BTree.leaf L then .leaf L else .node lb c1' c2'

/-- The number of open branches currently at label `L` (the length of
`leaf_branches` after the merge loop). -/
def countLabelLeaves (L : String) : BTree → Nat
  | .leaf l => if l = L then 1 else 0
  | .node _ c1 c2 => countLabelLeaves L c1 + countLabelLeaves L c2

/-- The branch-merge bookkeeping of `co_label` (lines 904-949): after
merging, exactly one open branch must carry the label, otherwise a
`ShaderError` is raised (line 945-948).  The hop-label emission for the
merged pairs does not affect the check and is not embedded. -/
def co_label_merge (t : BTree) (L : String) : Except Err BTree :=
  let t' := contractAll L t
  if countLabelLeaves L t' = 1 then .ok t'
  else .error (.shader (.mergeCount L))

/-- `co_func_end` (lines 174-179): if the current branch is not the root
branch, a `RuntimeError` (not a `ShaderError`) is raised. -/
def co_func_end (current_is_root : Bool) : Except Err Unit :=
  if !current_is_root then
    .error (.runtime "Function ends with unresolved sub-branches!")
  else
    .ok ()

/-- The `co_*` handler methods defined on `Bytecode2SpirVGenerator` in
`_generator_bc.py` (the dispatch of `_convert` looks opcode tags up as
method names; the abstract `OpCodeDefinitions` base class is not among the
provided sources). -/
def generatorMethods : List String :=
  ["co_func", "co_entrypoint", "co_func_end", "co_call", "co_resource",
   "co_pop_top", "co_dup_top", "co_load_name", "co_store_name",
   "co_load_index", "co_store_index", "co_load_attr", "co_load_constant",
   "co_load_array", "co_unary_op", "co_binop", "co_compare", "co_label",
   "co_branch", "co_branch_conditional"]

/-- The dispatch of `_convert` (lines 102-108): an opcode tag with no
matching handler method raises a `RuntimeError` (not a `ShaderError`). -/
def dispatchNSB (tag : String) : Except Err Unit :=
  if strLower tag ∈ generatorMethods then .ok ()
  else .error (.runtime ("Cannot parse " ++ tag ++ " yet."))

/-! ## Auxiliary predicates and example inputs used by the theorems -/

/-- Is the operation exactly `co_branch`? -/
def isCoBranch : Op → Bool
  | .co_branch _ => true
  | _ => false

/-- The emitted-stream invariant behind the `emit` assertion: no `co_branch`
directly follows a branch-family operation. -/
def noBranchAfterBranch : List Op → Bool
  | [] => true
  | [_] => true
  | a :: b :: t => !(branchFamily a && isCoBranch b) && noBranchAfterBranch (b :: t)

/-- The label arguments referenced by one operation (the positions
`_replace_labels` rewrites). -/
def labelArgs : Op → List String
  | .co_label l => [l]
  | .co_branch l => [l]
  | .co_branch_conditional a b => [a, b]
  | .co_branch_loop a b c => [a, b, c]
  | _ => []

/-- All label references of an opcode list. -/
def opLabels (ops : List Op) : List String :=
  (ops.map labelArgs).flatten

/-- The labels declared by the `co_label` operations of a list. -/
def labelsDeclared (ops : List Op) : List String :=
  ops.filterMap (fun o => match o with | .co_label l => some l | _ => none)

/-- No removable empty block at any index at or after `j`: every adjacent
`co_label(L); co_branch(M)` pair from there on has a protected `L`. -/
def noRemovablePairFrom (p : List String) (ops : List Op) (j : Nat) : Prop :=
  ∀ k, j ≤ k → ∀ L M, ops[k]? = some (Op.co_label L) →
    ops[k + 1]? = some (Op.co_branch M) → L ∈ p

/-- An NSB fragment in which `x` is stored in the two distinct blocks `A`
and `C`, in that order around a load of `x` in block `B`. -/
def prepassCounterOps : List Op :=
  [.co_label "A", .co_store_name "x", .co_label "B", .co_load_name "x",
   .co_label "C", .co_store_name "x"]

/-- A short-circuit `or` pattern as the translator leaves it before the
normalization pass: two conditional branches sharing the true label `T`,
with the single block `L2` between them. -/
def orPatternOps : List Op :=
  [.co_load_name "a", .co_branch_conditional "T" "L2", .co_label "L2",
   .co_load_name "b", .co_branch_conditional "T" "F", .co_label "T",
   .co_load_name "x", .co_label "F"]

/-- The result of the `or` normalization on `orPatternOps`. -/
def orPatternFixed : List Op :=
  [.co_load_name "a", .co_load_name "b", .co_binary_op "or",
   .co_branch_conditional "T" "F", .co_label "T", .co_load_name "x",
   .co_label "F"]

/-- A small program with one removable empty block (`label "10"; branch
"20"`) referenced by an earlier branch, and one surviving block. -/
def eb6Ops : List Op :=
  [.co_branch "10", .co_label "10", .co_branch "20", .co_label "20",
   .co_load_name "x"]

/-! ## Theorems -/

/-- C10: for every Python function accepted by `python2shader`, the emitted
entrypoint operation carries the literal name `main` regardless of the
function's own name; the function name enters the emission only through the
detected shader stage (and, outside the NSB, the module description). -/
theorem entrypoint_name_main :
    (∀ funcName stage, detectShaderType funcName = .ok stage →
      convertEntry funcName = .ok [Op.co_entrypoint "main" stage []]) ∧
    (∀ n1 n2, detectShaderType n1 = detectShaderType n2 →
      convertEntry n1 = convertEntry n2) := by
  constructor
  · intro f s h
    simp [convertEntry, h, emit, Bind.bind, Except.bind]
  · intro n1 n2 h
    simp [convertEntry, h]

/-- Witness for C10 at a concrete accepted function name. -/
theorem entrypoint_name_main_witness :
    detectShaderType "mycompute" = Except.ok "compute" ∧
    convertEntry "mycompute" = Except.ok [Op.co_entrypoint "main" "compute" []] :=
  ⟨rfl, entrypoint_name_main.1 "mycompute" "compute" rfl⟩

/-- C7: opening a for-range loop first stores the three stacked range
values to the `-step`, `-stop`, `-start` slots, initializes the iteration
variable from `-start`, and then emits exactly
`branch(header); label(header); branch_loop(iter, continue, merge);
label(iter); load v; load v-stop; compare(<);
branch_conditional(body, merge); label(body)` before the loop body is
translated. -/
theorem for_loop_scaffolding (ops : List Op) (li : LoopInfo)
    (hty : li.ltype = "for") (hr : li.range_is_set = true) :
    startLoop ops li = .ok (ops ++
      [Op.co_store_name (li.iter_name ++ "-step"),
       Op.co_store_name (li.iter_name ++ "-stop"),
       Op.co_store_name (li.iter_name ++ "-start"),
       Op.co_load_name (li.iter_name ++ "-start"),
       Op.co_store_name li.iter_name,
       Op.co_branch li.header_label,
       Op.co_label li.header_label,
       Op.co_branch_loop li.iter_label li.continue_label li.merge_label,
       Op.co_label li.iter_label,
       Op.co_load_name li.iter_name,
       Op.co_load_name (li.iter_name ++ "-stop"),
       Op.co_compare "<",
       Op.co_branch_conditional li.body_label li.merge_label,
       Op.co_label li.body_label]) := by
  simp [startLoop, hty, hr, emit, branchFamily, Bind.bind, Except.bind,
    List.getLast?_concat, pure, Except.pure]

/-- Witness for C7 at a concrete loop record. -/
theorem for_loop_scaffolding_witness :
    (⟨"for", 0, 10, true, "Lh1", "Li1", "Lc1", "Lb1", "Lm1", true, "i"⟩ :
      LoopInfo).ltype = "for" ∧
    startLoop [] ⟨"for", 0, 10, true, "Lh1", "Li1", "Lc1", "Lb1", "Lm1", true, "i"⟩ =
      .ok [Op.co_store_name "i-step", Op.co_store_name "i-stop",
        Op.co_store_name "i-start", Op.co_load_name "i-start",
        Op.co_store_name "i", Op.co_branch "Lh1", Op.co_label "Lh1",
        Op.co_branch_loop "Li1" "Lc1" "Lm1", Op.co_label "Li1",
        Op.co_load_name "i", Op.co_load_name "i-stop", Op.co_compare "<",
        Op.co_branch_conditional "Lb1" "Lm1", Op.co_label "Lb1"] :=
  ⟨rfl, for_loop_scaffolding []
    ⟨"for", 0, 10, true, "Lh1", "Li1", "Lc1", "Lb1", "Lm1", true, "i"⟩ rfl rfl⟩

/-- C2 (code evaluated at the failing inputs): converting an `f32` value
with the `u32` scalar constructor emits `OpConvertFToS`, and converting an
`i32` value to `u32` emits `OpSConvert`, although the declared output
element type name starts with `u` (the source computes the unsigned opcodes
into a local that is never used in the emission). -/
theorem scalar_convert_signed_emitted :
    strStartsWith (SType.scalar SKind.u32).tname "u" = true ∧
    (_convert_scalar (SType.scalar .u32) ⟨1, SType.scalar .f32⟩).run
        (⟨2, [], [], []⟩ : GenState) =
      .ok (⟨3, SType.scalar .u32⟩,
           ⟨4, [(SType.scalar .u32, 2)], [], [(SpvOp.ConvertFToS, [2, 3, 1])]⟩) ∧
    (_convert_scalar_or_vector (SType.scalar .u32) (SType.scalar .u32)
        ⟨1, SType.scalar .i32⟩ (SType.scalar .i32)).run
        (⟨2, [], [], []⟩ : GenState) =
      .ok (⟨3, SType.scalar .u32⟩,
           ⟨4, [(SType.scalar .u32, 2)], [], [(SpvOp.SConvert, [2, 3, 1])]⟩) :=
  ⟨by decide, rfl, rfl⟩

/-- C3 (code evaluated at the failing input): for `binary_op add` on a
float scalar (id 1) and a float vector (id 2), the scalar is broadcast
(`CompositeConstruct [1, 1]` giving id 5), but the final `FAdd` is applied
to `[1, 5]` - the scalar and the broadcast - so the original vector operand
id 2 is dropped; in the opposite operand order the emitted `FAdd [1, 5]`
correctly pairs the vector (id 1) with the broadcast (id 5). -/
theorem binop_scalar_vector_broadcast :
    (co_binop "add" ⟨1, SType.scalar .f32⟩ ⟨2, SType.vector 2 .f32⟩).run
        (⟨3, [], [], []⟩ : GenState) =
      .ok (⟨4, SType.vector 2 .f32⟩,
           ⟨6, [(SType.vector 2 .f32, 3)], [],
            [(SpvOp.CompositeConstruct, [3, 5, 1, 1]),
             (SpvOp.FAdd, [3, 4, 1, 5])]⟩) ∧
    (co_binop "add" ⟨1, SType.vector 2 .f32⟩ ⟨2, SType.scalar .f32⟩).run
        (⟨3, [], [], []⟩ : GenState) =
      .ok (⟨4, SType.vector 2 .f32⟩,
           ⟨6, [(SType.vector 2 .f32, 3)], [],
            [(SpvOp.CompositeConstruct, [3, 5, 2, 2]),
             (SpvOp.FAdd, [3, 4, 1, 5])]⟩) :=
  ⟨rfl, rfl⟩

/-- C1 counterexample: a resource declaration whose processing fails with a
`ShaderError` although no earlier declaration claimed any slot key (the
slot map is empty): the claimed equivalence of failure with slot collision
does not hold as stated. -/
theorem resource_slot_counterexample :
    co_resource_slots [] ⟨"x", "banana", Slot.int 0, "f32"⟩ =
      .error (.shader (.invalidKind "banana")) ∧
    smLookup [] (slotKey ⟨"x", "banana", Slot.int 0, "f32"⟩) = none :=
  ⟨rfl, rfl⟩

/-- C1 amended: a resource declaration raises the duplicate-slot
`ShaderError` iff its kind is one of the six valid kinds and an earlier
declaration already claimed the same (namespace, slot) key - the namespace
being the kind itself for `input`/`output` and the bind group for the
others; with a fresh key and a valid kind the declaration claims the key,
so the first declaration to claim any slot never triggers this error. -/
theorem resource_slot_uniqueness (m : Slotmap) (d : RDecl) :
    ((∃ other, co_resource_slots m d =
        .error (.shader (.slotTaken (slotKey d).1 (slotKey d).2 d.name other))) ↔
      d.kind ∈ validKinds ∧ (smLookup m (slotKey d)).isSome = true) ∧
    (smLookup m (slotKey d) = none → d.kind ∈ validKinds →
      co_resource_slots m d = .ok (m ++ [(slotKey d, d.name)])) := by
  rcases hsp : splitSlot d.slot with ⟨bg, sv⟩
  by_cases hk : d.kind ∈ validKinds <;>
    cases hl : smLookup m (namespaceId d.kind bg, sv) <;>
      simp [co_resource_slots, slotKey, hsp, hk, hl]

/-- Witness for C1 at a concrete duplicate declaration. -/
theorem resource_slot_uniqueness_witness :
    ((⟨"b", "input", Slot.int 0, "f32"⟩ : RDecl).kind ∈ validKinds ∧
      (smLookup [(("input", SlotVal.int 0), "a")]
        (slotKey ⟨"b", "input", Slot.int 0, "f32"⟩)).isSome = true) ∧
    (∃ other, co_resource_slots [(("input", SlotVal.int 0), "a")]
        ⟨"b", "input", Slot.int 0, "f32"⟩ =
      .error (.shader (.slotTaken "input" (SlotVal.int 0) "b" other))) :=
  ⟨⟨by decide, by decide⟩,
   (resource_slot_uniqueness [(("input", SlotVal.int 0), "a")]
      ⟨"b", "input", Slot.int 0, "f32"⟩).1.mpr ⟨by decide, by decide⟩⟩

/-- C8 counterexample: two of the three structural errors are raised as
`RuntimeError`, not as `ShaderError`: reaching `func_end` with open
branches, and dispatching an unrecognized NSB opcode. -/
theorem structural_error_counterexample :
    co_func_end false = .error (.runtime "Function ends with unresolved sub-branches!") ∧
    dispatchNSB "co_banana" = .error (.runtime "Cannot parse co_banana yet.") :=
  ⟨rfl, rfl⟩

/-- C8 amended: each structural error is raised at its first violation, but
with two different kinds: `func_end` with open branches and an unrecognized
NSB opcode raise `RuntimeError`, while a label whose merge resolution does
not leave exactly one open branch raises `ShaderError`. -/
theorem structural_error_kinds :
    (∀ b, b = false →
      co_func_end b = .error (.runtime "Function ends with unresolved sub-branches!")) ∧
    (∀ t L, countLabelLeaves L (contractAll L t) ≠ 1 →
      co_label_merge t L = .error (.shader (.mergeCount L))) ∧
    (∀ t L, countLabelLeaves L (contractAll L t) = 1 →
      co_label_merge t L = .ok (contractAll L t)) ∧
    (∀ tag, strLower tag ∉ generatorMethods →
      dispatchNSB tag = .error (.runtime ("Cannot parse " ++ tag ++ " yet."))) := by
  refine ⟨?_, ?_, ?_, ?_⟩
  · intro b hb; subst hb; rfl
  · intro t L h; simp [co_label_merge, h]
  · intro t L h; simp [co_label_merge, h]
  · intro tag h; simp [dispatchNSB, h]

/-- Witness for C8 at concrete violating inputs. -/
theorem structural_error_kinds_witness :
    (false = false ∧
      co_func_end false = .error (.runtime "Function ends with unresolved sub-branches!")) ∧
    (countLabelLeaves "L" (contractAll "L" (BTree.leaf "X")) ≠ 1 ∧
      co_label_merge (BTree.leaf "X") "L" = .error (.shader (.mergeCount "L"))) ∧
    (strLower "co_banana" ∉ generatorMethods ∧
      dispatchNSB "co_banana" =
        .error (.runtime ("Cannot parse " ++ "co_banana" ++ " yet."))) :=
  ⟨⟨rfl, structural_error_kinds.1 false rfl⟩,
   ⟨by decide, structural_error_kinds.2.1 (BTree.leaf "X") "L" (by decide)⟩,
   ⟨by decide, structural_error_kinds.2.2.2 "co_banana" (by decide)⟩⟩

/-- A terminating run of the `or` normalization ends in a state in which
`_get_block_to_resolve` finds nothing. -/
theorem fix_or_reaches_fixedpoint : ∀ n ops res,
    _fix_or_control_flow n ops = some res → _get_block_to_resolve res = none := by
  intro n
  induction n with
  | zero => intro ops res h; simp [_fix_or_control_flow] at h
  | succ k ih =>
    intro ops res h
    unfold _fix_or_control_flow at h
    cases hg : _get_block_to_resolve ops with
    | none =>
      rw [hg] at h
      cases h
      exact hg
    | some b =>
      rw [hg] at h
      exact ih _ _ h

/-- C5: the short-circuit `or` normalization is idempotent - whenever a run
of the pass terminates (the fuel bounds the source's `while True` loop), a
second run on its own output, with any positive fuel, changes nothing. -/
theorem or_fix_idempotent (n m : Nat) (ops res : List Op)
    (h : _fix_or_control_flow n ops = some res) (hm : 1 ≤ m) :
    _fix_or_control_flow m res = some res := by
  have hfix := fix_or_reaches_fixedpoint n ops res h
  match m, hm with
  | k + 1, _ =>
    unfold _fix_or_control_flow
    rw [hfix]

/-- Witness for C5 on a concrete `or` pattern. -/
theorem or_fix_idempotent_witness :
    _fix_or_control_flow 3 orPatternOps = some orPatternFixed ∧
    _fix_or_control_flow 1 orPatternFixed = some orPatternFixed :=
  ⟨by decide, or_fix_idempotent 3 1 orPatternOps orPatternFixed (by decide) (by decide)⟩

/-- A successful `emit` appends its operation, and a successful `co_branch`
emission implies the previous operation was not branch-family. -/
theorem emit_ok {ops : List Op} {o : Op} {ops' : List Op}
    (he : emit ops o = .ok ops') :
    ops' = ops ++ [o] ∧
    (isCoBranch o = true →
      ∃ last, ops.getLast? = some last ∧ branchFamily last = false) := by
  cases o <;> simp [emit, isCoBranch] at he ⊢ <;> try exact he.symm
  case co_branch l =>
    cases hl : ops.getLast? with
    | none => rw [hl] at he; exact absurd he (by simp)
    | some last =>
      rw [hl] at he
      by_cases hb : branchFamily last = true
      · simp [hb] at he
      · simp [hb] at he
        exact ⟨he.symm, last, rfl, by simpa using hb⟩

/-- Appending one operation preserves the no-branch-after-branch invariant
provided the appended operation may follow the current last one. -/
theorem nbab_concat : ∀ (ops : List Op) (o : Op),
    noBranchAfterBranch ops = true →
    (∀ a, ops.getLast? = some a → (branchFamily a && isCoBranch o) = false) →
    noBranchAfterBranch (ops ++ [o]) = true := by
  intro ops o
  induction ops with
  | nil => intro _ _; simp [noBranchAfterBranch]
  | cons a t ih =>
    intro h hlast
    cases t with
    | nil =>
      have hao := hlast a (by simp)
      simp only [List.cons_append, List.nil_append, noBranchAfterBranch, hao,
        Bool.not_false, Bool.true_and]
    | cons b t2 =>
      have h1 : (branchFamily a && isCoBranch b) = false ∧
          noBranchAfterBranch (b :: t2) = true := by
        have h0 := h
        unfold noBranchAfterBranch at h0
        rw [Bool.and_eq_true, Bool.not_eq_true'] at h0
        exact h0
      have h2 := ih h1.2 (fun x hx => hlast x (by
        rw [List.getLast?_cons_cons]; exact hx))
      show noBranchAfterBranch (a :: b :: (t2 ++ [o])) = true
      unfold noBranchAfterBranch
      simp only [h1.1, Bool.not_false, Bool.true_and]
      exact h2

/-- C9: the translator's emission discipline keeps the dumped stream free
of a `co_branch` directly following a branch-family operation: every
successful `emit` preserves the invariant (the `co_branch` case asserts
that the previous operation is not a branch), the implicit-label step
preserves it, and the implicit-label step skips its `co_branch` entirely
when the last emitted operation is already branch-family. -/
theorem branch_emit_invariant :
    (∀ ops o ops', noBranchAfterBranch ops = true → emit ops o = .ok ops' →
      noBranchAfterBranch ops' = true) ∧
    (∀ ops l ops', noBranchAfterBranch ops = true →
      implicitLabel ops l = .ok ops' → noBranchAfterBranch ops' = true) ∧
    (∀ ops l last, ops.getLast? = some last → branchFamily last = true →
      implicitLabel ops l = emit ops (Op.co_label l)) := by
  have hemit : ∀ ops o ops', noBranchAfterBranch ops = true →
      emit ops o = .ok ops' → noBranchAfterBranch ops' = true := by
    intro ops o ops' h he
    obtain ⟨rfl, hbr⟩ := emit_ok he
    apply nbab_concat ops o h
    intro a ha
    cases hc : isCoBranch o with
    | false => simp
    | true =>
      obtain ⟨last, hl, hbf⟩ := hbr hc
      rw [ha] at hl
      cases hl
      simp [hbf]
  refine ⟨hemit, ?_, ?_⟩
  · intro ops l ops' h hi
    unfold implicitLabel at hi
    cases hl : ops.getLast? with
    | none => rw [hl] at hi; exact absurd hi (by simp [Bind.bind, Except.bind])
    | some last =>
      rw [hl] at hi
      simp only [Bind.bind, Except.bind] at hi
      cases hbf : branchFamily last with
      | true =>
        rw [hbf] at hi
        simp only [if_true] at hi
        exact hemit ops _ ops' h hi
      | false =>
        rw [hbf] at hi
        simp only [Bool.false_eq_true, if_false] at hi
        cases hmid : emit ops (Op.co_branch l) with
        | error e => rw [hmid] at hi; cases hi
        | ok mid =>
          rw [hmid] at hi
          exact hemit mid _ ops' (hemit ops _ mid h hmid) hi
  · intro ops l last hl hb
    unfold implicitLabel
    rw [hl]
    simp [hb, Bind.bind, Except.bind]

/-- Membership after a set insertion. -/
theorem mem_listAdd {xs : List String} {v a : String} :
    a ∈ listAdd xs v ↔ a ∈ xs ∨ a = v := by
  unfold listAdd
  by_cases h : v ∈ xs
  · simp only [if_pos h]
    constructor
    · exact Or.inl
    · rintro (ha | rfl)
      · exact ha
      · exact h
  · simp [if_neg h]

/-- Lookup after a keyed set insertion. -/
theorem mapGet_mapAdd (m : SetMap) (k v j : String) :
    mapGet (mapAdd m k v) j = if j = k then listAdd (mapGet m k) v else mapGet m j := by
  induction m with
  | nil =>
    by_cases h : j = k
    · subst h; simp [mapAdd, mapGet, listAdd]
    · simp [mapAdd, mapGet, h, Ne.symm h]
  | cons kv t ih =>
    obtain ⟨k', vs⟩ := kv
    by_cases h1 : k' = k
    · subst h1
      by_cases h2 : k' = j
      · subst h2
        simp [mapAdd, mapGet]
      · have h2' : ¬(j = k') := fun hh => h2 hh.symm
        simp [mapAdd, mapGet, h2, h2']
    · by_cases h2 : k' = j
      · subst h2
        simp [mapAdd, mapGet, h1, Ne.symm h1]
      · have h2' : ¬(j = k') := fun hh => h2 hh.symm
        simp [mapAdd, mapGet, h1, h2, h2', ih]

/-- Lookup at the inserted key. -/
theorem mapGet_mapAdd_self (m : SetMap) (k v : String) :
    mapGet (mapAdd m k v) k = listAdd (mapGet m k) v := by
  rw [mapGet_mapAdd]
  simp

/-- Lookup away from the inserted key. -/
theorem mapGet_mapAdd_other (m : SetMap) (k v j : String) (h : ¬(j = k)) :
    mapGet (mapAdd m k v) j = mapGet m j := by
  rw [mapGet_mapAdd]
  simp [h]

/-- Lookup after folding a set insertion over a list of keys. -/
theorem mem_mapGet_foldl_mapAdd (v : String) :
    ∀ (blocks : List String) (acc : SetMap) (a B : String),
    a ∈ mapGet (blocks.foldl (fun ac b => mapAdd ac b v) acc) B ↔
      a ∈ mapGet acc B ∨ (B ∈ blocks ∧ a = v) := by
  intro blocks
  induction blocks with
  | nil => simp
  | cons b bs ih =>
    intro acc a B
    simp only [List.foldl_cons]
    rw [ih, mapGet_mapAdd]
    by_cases hB : B = b
    · subst hB
      simp [mem_listAdd, List.mem_cons]
      try tauto
    · simp [hB, List.mem_cons]
      try tauto

/-- The running label after appending one operation. -/
theorem lastLabel_append (ops : List Op) (o : Op) :
    lastLabel (ops ++ [o]) = curStep (lastLabel ops) o := by
  simp [lastLabel, List.foldl_append]

/-- The first component of the store-block fold is the running label. -/
theorem storeFold_fst (n : String) :
    ∀ (ops : List Op) (a : String) (xs : List String),
    (ops.foldl (storeStep n) (a, xs)).1 = ops.foldl curStep a := by
  have hstep : ∀ (st : String × List String) (o : Op),
      (storeStep n st o).1 = curStep st.1 o := by
    intro st o
    cases o <;> simp only [storeStep, curStep] <;> (try split) <;> rfl
  intro ops
  induction ops with
  | nil => intro a xs; rfl
  | cons o t ih =>
    intro a xs
    simp only [List.foldl_cons]
    rw [show storeStep n (a, xs) o =
      ((storeStep n (a, xs) o).1, (storeStep n (a, xs) o).2) from rfl]
    rw [ih, hstep]

/-- The store-block set after appending one operation. -/
theorem storeBlocks_append (ops : List Op) (o : Op) (n : String) :
    storeBlocks (ops ++ [o]) n =
      (match o with
       | .co_store_name m =>
         if m = n then listAdd (storeBlocks ops n) (lastLabel ops)
         else storeBlocks ops n
       | _ => storeBlocks ops n) := by
  unfold storeBlocks
  rw [List.foldl_append]
  simp only [List.foldl_cons, List.foldl_nil]
  cases o <;> simp only [storeStep] <;> try rfl
  case co_store_name m =>
    split
    · rw [show (List.foldl (storeStep n) ("", []) ops) =
        ((List.foldl (storeStep n) ("", []) ops).1,
         (List.foldl (storeStep n) ("", []) ops).2) from rfl,
        storeFold_fst]
      rfl
    · rfl

/-- Splitting a list with one appended element around a distinguished
member. -/
theorem exists_split_concat {α : Type} (ops : List α) (o x : α) (P : List α → Prop) :
    (∃ p q, ops ++ [o] = p ++ x :: q ∧ P p) ↔
      ((∃ p q, ops = p ++ x :: q ∧ P p) ∨ (x = o ∧ P ops)) := by
  constructor
  · rintro ⟨p, q, heq, hP⟩
    rcases List.eq_nil_or_concat q with rfl | ⟨q', o', rfl⟩
    · right
      obtain ⟨h1, h2⟩ := List.append_inj' heq rfl
      obtain rfl : o = x := by injection h2
      exact ⟨rfl, h1 ▸ hP⟩
    · left
      have heq' : ops ++ [o] = (p ++ x :: q') ++ [o'] := by
        simpa [List.append_assoc] using heq
      obtain ⟨h1, h2⟩ := List.append_inj' heq' rfl
      exact ⟨p, q', h1, hP⟩
  · rintro (⟨p, q, rfl, hP⟩ | ⟨rfl, hP⟩)
    · exact ⟨p, q ++ [o], by simp, hP⟩
    · exact ⟨ops, [], rfl, hP⟩

/-- `promotedLoad` on a list with one appended operation. -/
theorem promotedLoad_concat (ops : List Op) (o : Op) (n L : String) :
    promotedLoad (ops ++ [o]) n L ↔
      promotedLoad ops n L ∨
        (Op.co_load_name n = o ∧ lastLabel ops = L ∧ L ∉ storeBlocks ops n ∧
          2 ≤ (storeBlocks ops n).length) := by
  unfold promotedLoad
  exact exists_split_concat ops o (Op.co_load_name n)
    (fun p => lastLabel p = L ∧ L ∉ storeBlocks p n ∧ 2 ≤ (storeBlocks p n).length)

/-- `promotedStore` on a list with one appended operation. -/
theorem promotedStore_concat (ops : List Op) (o : Op) (n B : String) :
    promotedStore (ops ++ [o]) n B ↔
      promotedStore ops n B ∨
        (Op.co_load_name n = o ∧ lastLabel ops ∉ storeBlocks ops n ∧
          2 ≤ (storeBlocks ops n).length ∧ B ∈ storeBlocks ops n) := by
  unfold promotedStore
  exact exists_split_concat ops o (Op.co_load_name n)
    (fun p => lastLabel p ∉ storeBlocks p n ∧ 2 ≤ (storeBlocks p n).length ∧
      B ∈ storeBlocks p n)

/-- The pre-pass state after appending one operation. -/
theorem prepass_append (ops : List Op) (o : Op) :
    prepass (ops ++ [o]) = prepassStep (prepass ops) o := by
  simp [prepass, List.foldl_append]

/-- The invariant bundle of the pre-pass fold: the running label, the
store-block sets, and the characterization of both need-sets. -/
theorem prepass_invariants : ∀ ops : List Op,
    (prepass ops).cur = lastLabel ops ∧
    (∀ n, mapGet (prepass ops).saved n = storeBlocks ops n) ∧
    (∀ n L, n ∈ mapGet (prepass ops).needLoad L ↔ promotedLoad ops n L) ∧
    (∀ n B, n ∈ mapGet (prepass ops).needSave B ↔ promotedStore ops n B) := by
  intro ops
  induction ops using List.reverseRecOn with
  | nil =>
    refine ⟨rfl, fun n => rfl, fun n L => ?_, fun n B => ?_⟩ <;>
      simp [prepass, mapGet, promotedLoad, promotedStore]
  | append_singleton ops o ih =>
    obtain ⟨ihc, ihs, ihl, ihsv⟩ := ih
    rw [prepass_append]
    cases o
    case co_label l =>
      refine ⟨?_, fun n => ?_, fun n L => ?_, fun n B => ?_⟩ <;>
        simp [prepassStep, lastLabel_append, curStep, storeBlocks_append,
          promotedLoad_concat, promotedStore_concat, ihc, ihs, ihl, ihsv]
    case co_store_name m =>
      refine ⟨?_, fun n => ?_, fun n L => ?_, fun n B => ?_⟩
      · simp [prepassStep, lastLabel_append, curStep, ihc]
      · rw [storeBlocks_append]
        simp only [prepassStep]
        rw [mapGet_mapAdd]
        by_cases h : n = m
        · subst h
          simp [ihs, ihc]
        · simp [Ne.symm h, h, ihs]
      · simp [prepassStep, promotedLoad_concat, ihl]
      · simp [prepassStep, promotedStore_concat, ihsv]
    case co_load_name m =>
      by_cases h1 : (prepass ops).cur ∈ mapGet (prepass ops).saved m
      · have hstep : prepassStep (prepass ops) (.co_load_name m) = prepass ops := by
          simp [prepassStep, h1]
        rw [hstep]
        refine ⟨by simp [lastLabel_append, curStep, ihc],
          fun n => by rw [storeBlocks_append]; exact ihs n,
          fun n L => ?_, fun n B => ?_⟩
        · rw [promotedLoad_concat, ihl]
          have : ¬(Op.co_load_name n = Op.co_load_name m ∧ lastLabel ops = L ∧
              L ∉ storeBlocks ops n ∧ 2 ≤ (storeBlocks ops n).length) := by
            rintro ⟨hn, hL, hnot, _⟩
            injection hn with hn
            subst hn
            exact hnot (hL ▸ (ihc ▸ (ihs n ▸ h1)))
          tauto
        · rw [promotedStore_concat, ihsv]
          have : ¬(Op.co_load_name n = Op.co_load_name m ∧
              lastLabel ops ∉ storeBlocks ops n ∧
              2 ≤ (storeBlocks ops n).length ∧ B ∈ storeBlocks ops n) := by
            rintro ⟨hn, hnot, _, _⟩
            injection hn with hn
            subst hn
            exact hnot (ihc ▸ (ihs n ▸ h1))
          tauto
      · by_cases h2 : (mapGet (prepass ops).saved m).length ≤ 1
        · have hstep : prepassStep (prepass ops) (.co_load_name m) = prepass ops := by
            simp [prepassStep, h1, h2]
          rw [hstep]
          refine ⟨by simp [lastLabel_append, curStep, ihc],
            fun n => by rw [storeBlocks_append]; exact ihs n,
            fun n L => ?_, fun n B => ?_⟩
          · rw [promotedLoad_concat, ihl]
            have : ¬(Op.co_load_name n = Op.co_load_name m ∧ lastLabel ops = L ∧
                L ∉ storeBlocks ops n ∧ 2 ≤ (storeBlocks ops n).length) := by
              rintro ⟨hn, _, _, hlen⟩
              injection hn with hn
              subst hn
              rw [← ihs n] at hlen
              omega
            tauto
          · rw [promotedStore_concat, ihsv]
            have : ¬(Op.co_load_name n = Op.co_load_name m ∧
                lastLabel ops ∉ storeBlocks ops n ∧
                2 ≤ (storeBlocks ops n).length ∧ B ∈ storeBlocks ops n) := by
              rintro ⟨hn, _, hlen, _⟩
              injection hn with hn
              subst hn
              rw [← ihs n] at hlen
              omega
            tauto
        · have hstep : prepassStep (prepass ops) (.co_load_name m) =
              { prepass ops with
                needLoad := mapAdd (prepass ops).needLoad (prepass ops).cur m
                needSave := (mapGet (prepass ops).saved m).foldl
                  (fun acc b => mapAdd acc b m) (prepass ops).needSave } := by
            simp [prepassStep, h1, h2]
          rw [hstep]
          have hcond : (prepass ops).cur = lastLabel ops ∧
              lastLabel ops ∉ storeBlocks ops m ∧
              2 ≤ (storeBlocks ops m).length := by
            refine ⟨ihc, ?_, ?_⟩
            · rw [← ihs m, ← ihc]; exact h1
            · rw [← ihs m]; omega
          refine ⟨by simp [lastLabel_append, curStep, ihc],
            fun n => by rw [storeBlocks_append]; exact ihs n,
            fun n L => ?_, fun n B => ?_⟩
          · rw [promotedLoad_concat, ← ihl]
            show n ∈ mapGet (mapAdd (prepass ops).needLoad (prepass ops).cur m) L ↔ _
            by_cases hL : L = (prepass ops).cur
            · subst hL
              rw [mapGet_mapAdd_self, mem_listAdd]
              constructor
              · rintro (hmem | rfl)
                · exact Or.inl hmem
                · refine Or.inr ⟨rfl, ?_, ?_, ?_⟩
                  · exact hcond.1.symm
                  · rw [hcond.1]; exact hcond.2.1
                  · exact hcond.2.2
              · rintro (hmem | ⟨hn, _, _, _⟩)
                · exact Or.inl hmem
                · injection hn with hn
                  exact Or.inr hn
            · rw [mapGet_mapAdd_other _ _ _ _ hL]
              constructor
              · exact Or.inl
              · rintro (hmem | ⟨hn, hlast, _, _⟩)
                · exact hmem
                · exact absurd (hcond.1.trans hlast).symm hL
          · rw [promotedStore_concat, ← ihsv]
            show n ∈ mapGet ((mapGet (prepass ops).saved m).foldl
              (fun acc b => mapAdd acc b m) (prepass ops).needSave) B ↔ _
            rw [mem_mapGet_foldl_mapAdd, ihs m]
            constructor
            · rintro (hmem | ⟨hB, rfl⟩)
              · exact Or.inl hmem
              · exact Or.inr ⟨rfl, hcond.2.1, hcond.2.2, hB⟩
            · rintro (hmem | ⟨hn, _, _, hB⟩)
              · exact Or.inl hmem
              · injection hn with hn
                subst hn
                exact Or.inr ⟨hB, rfl⟩
    all_goals (
      refine ⟨?_, fun n => ?_, fun n L => ?_, fun n B => ?_⟩ <;>
        simp [prepassStep, lastLabel_append, curStep, storeBlocks_append,
          promotedLoad_concat, promotedStore_concat, ihc, ihs, ihl, ihsv])

/-- C4 counterexample: in this NSB the name `x` is stored in the two
distinct blocks `A` and `C` and loaded in block `B`, which is neither of
them - the claimed promotion condition holds - yet the pre-pass promotes
nothing, because only one store (in `A`) precedes the load. -/
theorem prepass_promotion_counterexample :
    prepassCounterOps =
      [Op.co_label "A", Op.co_store_name "x", Op.co_label "B"] ++
        Op.co_load_name "x" :: [Op.co_label "C", Op.co_store_name "x"] ∧
    lastLabel [Op.co_label "A", Op.co_store_name "x", Op.co_label "B"] = "B" ∧
    storeBlocks prepassCounterOps "x" = ["A", "C"] ∧
    "B" ∉ storeBlocks prepassCounterOps "x" ∧
    (prepass prepassCounterOps).needLoad = [] ∧
    (prepass prepassCounterOps).needSave = [] := by
  refine ⟨rfl, rfl, rfl, by decide, rfl, rfl⟩

/-- C4 amended: the pre-pass puts a name into some block's load set iff a
load of the name occurs at a point where the name has already been stored
in at least two distinct blocks, none of which is the loading block; the
save sets collect exactly the store blocks preceding such a load.  For a
name in no load set of the current block, `co_load_name` returns the last
recorded SSA id and changes nothing. -/
theorem prepass_promotion_characterization :
    (∀ ops n L, n ∈ mapGet (prepass ops).needLoad L ↔ promotedLoad ops n L) ∧
    (∀ ops n B, n ∈ mapGet (prepass ops).needSave B ↔ promotedStore ops n B) ∧
    (∀ st name vid, imLookup st.name_ids name = some vid →
      name ∉ mapGet st.needLoad st.curLabel →
      co_load_name_local st name = some (vid, st)) := by
  refine ⟨fun ops n L => (prepass_invariants ops).2.2.1 n L,
    fun ops n B => (prepass_invariants ops).2.2.2 n B,
    fun st name vid hin hnot => ?_⟩
  unfold co_load_name_local
  rw [hin]
  simp [hnot]

/-- Witness for C4 on a concrete program with a genuine promotion. -/
theorem prepass_promotion_witness :
    ("v" ∈ mapGet (prepass
      [Op.co_label "A", Op.co_store_name "v", Op.co_label "B",
       Op.co_store_name "v", Op.co_label "D", Op.co_load_name "v"]).needLoad "D" ↔
      promotedLoad
        [Op.co_label "A", Op.co_store_name "v", Op.co_label "B",
         Op.co_store_name "v", Op.co_label "D", Op.co_load_name "v"] "v" "D") ∧
    "v" ∈ mapGet (prepass
      [Op.co_label "A", Op.co_store_name "v", Op.co_label "B",
       Op.co_store_name "v", Op.co_label "D", Op.co_load_name "v"]).needLoad "D" ∧
    co_load_name_local ⟨[("w", 7)], [], [], "D", 10, []⟩ "w" =
      some (7, ⟨[("w", 7)], [], [], "D", 10, []⟩) :=
  ⟨prepass_promotion_characterization.1
    [Op.co_label "A", Op.co_store_name "v", Op.co_label "B",
     Op.co_store_name "v", Op.co_label "D", Op.co_load_name "v"] "v" "D",
   by decide,
   prepass_promotion_characterization.2.2 ⟨[("w", 7)], [], [], "D", 10, []⟩ "w" 7
     (by decide) (by decide)⟩

/-- Lookup after a dict assignment. -/
theorem lmLookup_lmSet (m : LMap) (k v j : String) :
    lmLookup (lmSet m k v) j = if j = k then some v else lmLookup m j := by
  induction m with
  | nil =>
    by_cases h : j = k
    · subst h; simp [lmSet, lmLookup]
    · simp [lmSet, lmLookup, h, Ne.symm h]
  | cons kv t ih =>
    obtain ⟨k', v'⟩ := kv
    by_cases h1 : k' = k
    · subst h1
      by_cases h2 : k' = j
      · subst h2; simp [lmSet, lmLookup]
      · have h2' : ¬(j = k') := fun hh => h2 hh.symm
        simp [lmSet, lmLookup, h2, h2']
    · by_cases h2 : k' = j
      · subst h2
        simp [lmSet, lmLookup, h1, Ne.symm h1]
      · have h2' : ¬(j = k') := fun hh => h2 hh.symm
        simp [lmSet, lmLookup, h1, h2, h2', ih]

/-- `resolveKey` changes only its key's binding and preserves which keys
are bound. -/
theorem resolveKey_frame : ∀ (fuel : Nat) (m : LMap) (key : String) (m' : LMap),
    resolveKey fuel m key = some m' →
    (∀ j, ¬(j = key) → lmLookup m' j = lmLookup m j) ∧
    (∀ j, (lmLookup m' j).isSome = (lmLookup m j).isSome) := by
  intro fuel
  induction fuel with
  | zero => intro m key m' h; cases h
  | succ f ih =>
    intro m key m' h
    unfold resolveKey at h
    cases hk : lmLookup m key with
    | none =>
      rw [hk] at h; cases h
      exact ⟨fun _ _ => rfl, fun _ => rfl⟩
    | some v =>
      rw [hk] at h
      simp only [] at h
      cases hv : lmLookup m v with
      | none =>
        rw [hv] at h; cases h
        exact ⟨fun _ _ => rfl, fun _ => rfl⟩
      | some w =>
        rw [hv] at h
        obtain ⟨ih1, ih2⟩ := ih _ _ _ h
        constructor
        · intro j hj
          rw [ih1 j hj, lmLookup_lmSet]
          simp [hj]
        · intro j
          rw [ih2 j, lmLookup_lmSet]
          by_cases hjk : j = key
          · subst hjk; simp [hk]
          · simp [hjk]

/-- After a successful `resolveKey`, the key's new value is not itself a
bound key. -/
theorem resolveKey_resolved : ∀ (fuel : Nat) (m : LMap) (key : String) (m' : LMap),
    resolveKey fuel m key = some m' →
    ∀ v, lmLookup m' key = some v → lmLookup m' v = none := by
  intro fuel
  induction fuel with
  | zero => intro m key m' h; cases h
  | succ f ih =>
    intro m key m' h
    unfold resolveKey at h
    cases hk : lmLookup m key with
    | none =>
      rw [hk] at h; cases h
      intro v hv
      rw [hk] at hv
      cases hv
    | some v =>
      rw [hk] at h
      simp only [] at h
      cases hv : lmLookup m v with
      | none =>
        rw [hv] at h; cases h
        intro v0 hv0
        rw [hk] at hv0
        cases hv0
        exact hv
      | some w =>
        rw [hv] at h
        exact ih _ _ _ h

/-- The resolution fold of `_replace_labels`: every processed key ends
bound to a non-key, key-boundness is preserved, and unprocessed keys keep
their bindings. -/
theorem resolveFold_post : ∀ (ks : List String) (acc m' : LMap),
    List.foldlM (fun a k => resolveKey (a.length + 1) a k) acc ks = some m' →
    (∀ k, k ∈ ks → ∀ v, lmLookup m' k = some v → lmLookup m' v = none) ∧
    (∀ j, (lmLookup m' j).isSome = (lmLookup acc j).isSome) ∧
    (∀ j, j ∉ ks → lmLookup m' j = lmLookup acc j) := by
  intro ks
  induction ks with
  | nil =>
    intro acc m' h
    simp only [List.foldlM_nil] at h
    cases h
    exact ⟨by simp, fun _ => rfl, fun _ _ => rfl⟩
  | cons k ks ih =>
    intro acc m' h
    simp only [List.foldlM_cons] at h
    cases hstep : resolveKey (acc.length + 1) acc k with
    | none => rw [hstep] at h; cases h
    | some a2 =>
      rw [hstep] at h
      simp only [Option.bind_eq_bind, Option.some_bind] at h
      obtain ⟨g1, g2, g3⟩ := ih a2 m' h
      obtain ⟨f1, f2⟩ := resolveKey_frame _ _ _ _ hstep
      have gk : ∀ v, lmLookup m' k = some v → lmLookup m' v = none := by
        by_cases hkks : k ∈ ks
        · exact g1 k hkks
        · intro v hv
          rw [g3 k hkks] at hv
          have hr := resolveKey_resolved _ _ _ _ hstep v hv
          have hiso : (lmLookup m' v).isSome = (lmLookup a2 v).isSome := g2 v
          rw [hr] at hiso
          cases hm : lmLookup m' v with
          | none => rfl
          | some w => rw [hm] at hiso; simp at hiso
      refine ⟨?_, ?_, ?_⟩
      · intro k0 hk0
        rcases List.mem_cons.mp hk0 with rfl | hk0'
        · exact gk
        · exact g1 k0 hk0'
      · intro j
        rw [g2 j, f2 j]
      · intro j hj
        have hj1 : ¬(j = k) := fun hh => hj (hh ▸ List.mem_cons_self k ks)
        have hj2 : j ∉ ks := fun hh => hj (List.mem_cons_of_mem _ hh)
        rw [g3 j hj2, f1 j hj1]

/-- A bound key occurs among the dict's keys. -/
theorem lmLookup_isSome_mem : ∀ (m : LMap) (k : String),
    (lmLookup m k).isSome = true → k ∈ m.map Prod.fst := by
  intro m
  induction m with
  | nil => intro k h; simp [lmLookup] at h
  | cons kv t ih =>
    intro k h
    obtain ⟨k', v⟩ := kv
    by_cases hk : k' = k
    · subst hk; simp
    · simp only [lmLookup, if_neg hk] at h
      simp only [List.map_cons, List.mem_cons]
      exact Or.inr (ih k h)

/-- `resolveAll` maps every bound key to a non-key and preserves which
keys are bound. -/
theorem resolveAll_post (m m' : LMap) (h : resolveAll m = some m') :
    (∀ k v, lmLookup m' k = some v → lmLookup m' v = none) ∧
    (∀ j, (lmLookup m' j).isSome = (lmLookup m j).isSome) := by
  unfold resolveAll at h
  obtain ⟨g1, g2, g3⟩ := resolveFold_post (m.map Prod.fst) m m' h
  refine ⟨?_, g2⟩
  intro k v hv
  have hks : k ∈ m.map Prod.fst := by
    apply lmLookup_isSome_mem
    rw [← g2 k, hv]
    rfl
  exact g1 k hks v hv

/-- After resolution, rewriting any label lands outside the key set. -/
theorem replaceLabel_resolved (m' : LMap)
    (hres : ∀ k v, lmLookup m' k = some v → lmLookup m' v = none) (x : String) :
    lmLookup m' (replaceLabel m' x) = none := by
  unfold replaceLabel
  cases hx : lmLookup m' x with
  | none => exact hx
  | some v => exact hres x v hx

/-- The two possible outcomes of one `ebStep`: no change (with any
unprotected pair at `i` excluded), or removal of the pair at `i`. -/
theorem ebStep_cases (p : List String) (ops : List Op) (m : LMap) (i : Nat)
    (ops' : List Op) (m' : LMap) (h : ebStep p ops m i = some (ops', m')) :
    (ops' = ops ∧ m' = m ∧
      (∀ L M, ops[i]? = some (Op.co_label L) →
        ops[i + 1]? = some (Op.co_branch M) → L ∈ p)) ∨
    (∃ L M, ops[i]? = some (Op.co_label L) ∧ ops[i + 1]? = some (Op.co_branch M) ∧
      L ∉ p ∧ ops' = ops.take i ++ ops.drop (i + 2) ∧
      setNewLabel (m.length + 1) m L M = some m') := by
  unfold ebStep at h
  cases h0 : ops[i]? with
  | none =>
    rw [h0] at h
    simp only [Option.some.injEq, Prod.mk.injEq] at h
    left
    exact ⟨h.1.symm, h.2.symm, fun L M hL _ => Option.noConfusion hL⟩
  | some o =>
    rw [h0] at h
    cases o
    case co_label L =>
      simp only [] at h
      cases h1 : ops[i + 1]? with
      | none => rw [h1] at h; cases h
      | some o2 =>
        rw [h1] at h
        cases o2
        case co_branch M =>
          simp only [] at h
          by_cases hp : L ∈ p
          · rw [if_pos hp] at h
            simp only [Option.some.injEq, Prod.mk.injEq] at h
            left
            refine ⟨h.1.symm, h.2.symm, ?_⟩
            intro L' M' hL _
            have hLL : L = L' := by
              simp only [Option.some.injEq, Op.co_label.injEq] at hL
              exact hL
            exact hLL ▸ hp
          · rw [if_neg hp] at h
            cases h2 : setNewLabel (m.length + 1) m L M with
            | none => rw [h2] at h; cases h
            | some mm =>
              rw [h2] at h
              simp only [Option.some.injEq, Prod.mk.injEq] at h
              right
              exact ⟨L, M, rfl, rfl, hp, h.1.symm, by rw [h2, h.2]⟩
        all_goals (
          simp only [Option.some.injEq, Prod.mk.injEq] at h
          left
          refine ⟨h.1.symm, h.2.symm, ?_⟩
          intro L' M' hL hM
          simp at hM)
    all_goals (
      simp only [Option.some.injEq, Prod.mk.injEq] at h
      left
      refine ⟨h.1.symm, h.2.symm, ?_⟩
      intro L' M' hL hM
      simp at hL)

/-- Indexing into a list with two elements cut out at `i`. -/
theorem getElem?_cutTwo (ops : List Op) (i k : Nat) (hle : i ≤ ops.length) :
    (ops.take i ++ ops.drop (i + 2))[k]? =
      if k < i then ops[k]? else ops[k + 2]? := by
  have hlen : (ops.take i).length = i := by
    rw [List.length_take]
    omega
  by_cases hk : k < i
  · rw [if_pos hk, List.getElem?_append_left (by omega)]
    rw [List.getElem?_take]
    simp [hk]
  · rw [if_neg hk, List.getElem?_append_right (by omega)]
    rw [List.getElem?_drop, hlen]
    congr 1
    omega

/-- The scan loop leaves no removable pair anywhere in its output. -/
theorem ebLoop_noPair (p : List String) : ∀ (i : Nat) (ops : List Op) (m : LMap)
    (out : List Op) (m' : LMap),
    i + 1 ≤ ops.length →
    noRemovablePairFrom p ops (i + 1) →
    ebLoop p i ops m = some (out, m') →
    noRemovablePairFrom p out 0 := by
  intro i
  induction i with
  | zero =>
    intro ops m out m' hlen hnp h
    rcases ebStep_cases p ops m 0 out m' h with
      ⟨rfl, rfl, hpair⟩ | ⟨L, M, h0, h1, hp, rfl, hm⟩
    · intro k _ L M hL hM
      rcases Nat.eq_zero_or_pos k with rfl | hkpos
      · exact hpair L M hL hM
      · exact hnp k hkpos L M hL hM
    · intro k _ L' M' hL hM
      rw [getElem?_cutTwo ops 0 k (by omega)] at hL
      rw [getElem?_cutTwo ops 0 (k + 1) (by omega)] at hM
      simp only [Nat.not_lt_zero, if_neg (Nat.not_lt_zero k),
        if_neg (Nat.not_lt_zero (k + 1))] at hL hM
      exact hnp (k + 2) (by omega) L' M' hL hM
  | succ i ih =>
    intro ops m out m' hlen hnp h
    unfold ebLoop at h
    cases hstep : ebStep p ops m (i + 1) with
    | none => rw [hstep] at h; cases h
    | some om =>
      obtain ⟨ops2, m2⟩ := om
      rw [hstep] at h
      simp only [Option.bind_eq_bind, Option.some_bind] at h
      rcases ebStep_cases p ops m (i + 1) ops2 m2 hstep with
        ⟨rfl, rfl, hpair⟩ | ⟨L, M, h0, h1, hp, rfl, hm⟩
      · refine ih _ _ out m' (by omega) ?_ h
        intro k hk L M hL hM
        rcases Nat.lt_or_ge k (i + 2) with hk2 | hk2
        · have : k = i + 1 := by omega
          subst this
          exact hpair L M hL hM
        · exact hnp k (by omega) L M hL hM
      · have hi2 : i + 2 < ops.length := by
          obtain ⟨hlt, -⟩ := List.getElem?_eq_some_iff.mp h1
          omega
        refine ih (ops.take (i + 1) ++ ops.drop (i + 1 + 2)) m2 out m' ?_ ?_ h
        · rw [List.length_append, List.length_take, List.length_drop]
          omega
        · intro k hk L' M' hL hM
          rw [getElem?_cutTwo ops (i + 1) k (by omega)] at hL
          rw [getElem?_cutTwo ops (i + 1) (k + 1) (by omega)] at hM
          rw [if_neg (by omega)] at hL
          rw [if_neg (by omega)] at hM
          exact hnp (k + 2) (by omega) L' M' hL hM

/-- The `_fix_empty_blocks` scan leaves no removable pair in its output. -/
theorem ebScan_noPair (p : List String) (ops out : List Op) (m : LMap)
    (h : ebScan p ops = some (out, m)) : noRemovablePairFrom p out 0 := by
  unfold ebScan at h
  by_cases hlen : ops.length ≤ 1
  · rw [if_pos hlen] at h
    simp only [Option.some.injEq, Prod.mk.injEq] at h
    obtain ⟨rfl, -⟩ := h
    intro k _ L M hL hM
    obtain ⟨hlt, -⟩ := List.getElem?_eq_some_iff.mp hM
    omega
  · rw [if_neg hlen] at h
    refine ebLoop_noPair p (ops.length - 2) ops [] out m (by omega) ?_ h
    intro k hk L M hL hM
    obtain ⟨hlt, -⟩ := List.getElem?_eq_some_iff.mp hM
    omega

/-- `labelsDeclared` distributes over append. -/
theorem labelsDeclared_append (a b : List Op) :
    labelsDeclared (a ++ b) = labelsDeclared a ++ labelsDeclared b := by
  simp [labelsDeclared, List.filterMap_append]

/-- Decomposing a list around an adjacent label/branch pair. -/
theorem ops_decomp (ops : List Op) (i : Nat) (L M : String)
    (h0 : ops[i]? = some (Op.co_label L))
    (h1 : ops[i + 1]? = some (Op.co_branch M)) :
    ops = ops.take i ++ Op.co_label L :: Op.co_branch M :: ops.drop (i + 2) := by
  obtain ⟨hlt0, he0⟩ := List.getElem?_eq_some_iff.mp h0
  obtain ⟨hlt1, he1⟩ := List.getElem?_eq_some_iff.mp h1
  conv_lhs => rw [← List.take_append_drop i ops]
  congr 1
  rw [List.drop_eq_getElem_cons hlt0, he0]
  congr 1
  rw [List.drop_eq_getElem_cons hlt1, he1]

/-- One scan step preserves label distinctness and keeps every recorded
(removed) label outside the surviving `co_label`s. -/
theorem scan_inv_step (p : List String) (ops : List Op) (m : LMap) (i : Nat)
    (ops' : List Op) (m' : LMap) (h : ebStep p ops m i = some (ops', m'))
    (hinv1 : (labelsDeclared ops).Nodup)
    (hinv2 : ∀ l, (lmLookup m l).isSome = true → l ∉ labelsDeclared ops) :
    (labelsDeclared ops').Nodup ∧
    (∀ l, (lmLookup m' l).isSome = true → l ∉ labelsDeclared ops') := by
  rcases ebStep_cases p ops m i ops' m' h with
    ⟨rfl, rfl, _⟩ | ⟨L, M, h0, h1, hp, rfl, hm⟩
  · exact ⟨hinv1, hinv2⟩
  · have hdec := ops_decomp ops i L M h0 h1
    have hlabels : labelsDeclared ops =
        labelsDeclared (ops.take i) ++ L :: labelsDeclared (ops.drop (i + 2)) := by
      conv_lhs => rw [hdec]
      rw [labelsDeclared_append]
      simp [labelsDeclared]
    have hlabels' : labelsDeclared (ops.take i ++ ops.drop (i + 2)) =
        labelsDeclared (ops.take i) ++ labelsDeclared (ops.drop (i + 2)) :=
      labelsDeclared_append _ _
    have hLmem : L ∈ labelsDeclared ops := by
      rw [hlabels]
      exact List.mem_append_right _ (List.mem_cons_self _ _)
    have hLnone : lmLookup m L = none := by
      cases hq : lmLookup m L with
      | none => rfl
      | some v => exact absurd hLmem (hinv2 L (by rw [hq]; rfl))
    obtain rfl : m' = lmSet m L M := by
      unfold setNewLabel at hm
      rw [hLnone] at hm
      exact (Option.some.inj hm).symm
    have hndops := hinv1
    rw [hlabels] at hndops
    refine ⟨?_, ?_⟩
    · rw [hlabels']
      have hsub : List.Sublist
          (labelsDeclared (ops.take i) ++ labelsDeclared (ops.drop (i + 2)))
          (labelsDeclared (ops.take i) ++ L :: labelsDeclared (ops.drop (i + 2))) :=
        List.Sublist.append_left (List.sublist_cons_self _ _) _
      exact hndops.sublist hsub
    · intro l hl
      rw [hlabels']
      rw [lmLookup_lmSet] at hl
      by_cases hlL : l = L
      · subst hlL
        intro hmem
        rcases List.mem_append.mp hmem with hA | hB
        · exact (List.disjoint_of_nodup_append hndops) hA (List.mem_cons_self _ _)
        · have hnB := (List.nodup_append.mp hndops).2.1
          exact (List.nodup_cons.mp hnB).1 hB
      · rw [if_neg hlL] at hl
        intro hmem
        apply hinv2 l hl
        rw [hlabels]
        rcases List.mem_append.mp hmem with hA | hB
        · exact List.mem_append_left _ hA
        · exact List.mem_append_right _ (List.mem_cons_of_mem _ hB)

/-- The scan loop preserves the label/key invariants. -/
theorem ebLoop_inv (p : List String) : ∀ (i : Nat) (ops : List Op) (m : LMap)
    (out : List Op) (m' : LMap),
    ebLoop p i ops m = some (out, m') →
    (labelsDeclared ops).Nodup →
    (∀ l, (lmLookup m l).isSome = true → l ∉ labelsDeclared ops) →
    (labelsDeclared out).Nodup ∧
    (∀ l, (lmLookup m' l).isSome = true → l ∉ labelsDeclared out) := by
  intro i
  induction i with
  | zero =>
    intro ops m out m' h h1 h2
    exact scan_inv_step p ops m 0 out m' h h1 h2
  | succ i ih =>
    intro ops m out m' h h1 h2
    unfold ebLoop at h
    cases hstep : ebStep p ops m (i + 1) with
    | none => rw [hstep] at h; cases h
    | some om =>
      obtain ⟨ops2, m2⟩ := om
      rw [hstep] at h
      simp only [Option.bind_eq_bind, Option.some_bind] at h
      obtain ⟨g1, g2⟩ := scan_inv_step p ops m (i + 1) ops2 m2 hstep h1 h2
      exact ih ops2 m2 out m' h g1 g2

/-- After the scan of a program with pairwise distinct `co_label`s, no
surviving label is a key of the replacement dict. -/
theorem ebScan_inv (p : List String) (ops out : List Op) (m : LMap)
    (h : ebScan p ops = some (out, m)) (hnd : (labelsDeclared ops).Nodup) :
    ∀ l, l ∈ labelsDeclared out → lmLookup m l = none := by
  unfold ebScan at h
  by_cases hlen : ops.length ≤ 1
  · rw [if_pos hlen] at h
    simp only [Option.some.injEq, Prod.mk.injEq] at h
    obtain ⟨rfl, rfl⟩ := h
    intro l _
    rfl
  · rw [if_neg hlen] at h
    obtain ⟨g1, g2⟩ := ebLoop_inv p (ops.length - 2) ops [] out m h hnd
      (by intro l hl; simp [lmLookup] at hl)
    intro l hl
    cases hq : lmLookup m l with
    | none => rfl
    | some v => exact absurd hl (g2 l (by rw [hq]; rfl))

/-- The label arguments of a swept operation are the rewritten label
arguments of the original operation. -/
theorem labelArgs_sweepOp (m : LMap) (o : Op) :
    labelArgs (sweepOp m o) = (labelArgs o).map (replaceLabel m) := by
  cases o <;> rfl

/-- The label references of the sweep output are the rewritten references
of the input. -/
theorem opLabels_sweep (m : LMap) (ops : List Op) :
    opLabels (replaceSweep m ops) = (opLabels ops).map (replaceLabel m) := by
  unfold opLabels replaceSweep
  rw [List.map_map, List.map_flatten, List.map_map]
  congr 1
  apply List.map_congr_left
  intro o _
  exact labelArgs_sweepOp m o

/-- A label declared at an index occurs in `labelsDeclared`. -/
theorem label_getElem_mem (ops : List Op) (k : Nat) (L : String)
    (h : ops[k]? = some (Op.co_label L)) : L ∈ labelsDeclared ops := by
  obtain ⟨hlt, he⟩ := List.getElem?_eq_some_iff.mp h
  unfold labelsDeclared
  apply List.mem_filterMap.mpr
  exact ⟨Op.co_label L, he ▸ List.getElem_mem hlt, rfl⟩

/-- The replacement sweep preserves the absence of removable pairs when no
surviving declared label is a key of the dict. -/
theorem noPair_sweep (p : List String) (ops : List Op) (m : LMap)
    (hkeys : ∀ l, l ∈ labelsDeclared ops → lmLookup m l = none)
    (hnp : noRemovablePairFrom p ops 0) :
    noRemovablePairFrom p (replaceSweep m ops) 0 := by
  intro k _ L M hL hM
  unfold replaceSweep at hL hM
  rw [List.getElem?_map] at hL hM
  cases h0 : ops[k]? with
  | none => rw [h0] at hL; cases hL
  | some o =>
    rw [h0] at hL
    simp only [Option.map_some', Option.some.injEq] at hL
    cases h1 : ops[k + 1]? with
    | none => rw [h1] at hM; cases hM
    | some o2 =>
      rw [h1] at hM
      simp only [Option.map_some', Option.some.injEq] at hM
      cases o <;> try exact Op.noConfusion hL
      case co_label l0 =>
        have hL2 : replaceLabel m l0 = L := Op.co_label.inj hL
        have hl0 : replaceLabel m l0 = l0 := by
          unfold replaceLabel
          rw [hkeys l0 (label_getElem_mem ops k l0 h0)]
        cases o2 <;> try exact Op.noConfusion hM
        case co_branch m0 =>
          have hlp : l0 ∈ p := hnp k (Nat.zero_le k) l0 m0 h0 h1
          have hLl0 : L = l0 := by rw [← hL2, hl0]
          exact hLl0 ▸ hlp

/-- C6: on every opcode sequence whose `co_label` declarations are pairwise
distinct (as the translator produces, labels being fresh counters), the
empty-block collapser output contains no adjacent `co_label(L); co_branch(M)`
pair with `L` unprotected — every removable empty block has been removed —
and no label reference of the output (in `co_label`, `co_branch`,
`co_branch_conditional` or `co_branch_loop`) is a key of the replacement
dict, i.e. no reference points at a removed label: chains of removed blocks
have been resolved transitively. -/
theorem empty_block_collapse (p : List String) (ops out : List Op) (m' : LMap)
    (hnd : (labelsDeclared ops).Nodup)
    (h : _fix_empty_blocks p ops = some (out, m')) :
    noRemovablePairFrom p out 0 ∧
    (∀ l, l ∈ opLabels out → lmLookup m' l = none) := by
  unfold _fix_empty_blocks at h
  cases hscan : ebScan p ops with
  | none => rw [hscan] at h; cases h
  | some om =>
    obtain ⟨ops1, m⟩ := om
    rw [hscan] at h
    simp only [Option.bind_eq_bind, Option.some_bind] at h
    unfold _replace_labels at h
    cases hres : resolveAll m with
    | none => rw [hres] at h; cases h
    | some m2 =>
      rw [hres] at h
      simp only [Option.bind_eq_bind, Option.some_bind, Option.some.injEq,
        Prod.mk.injEq] at h
      obtain ⟨rfl, rfl⟩ := h
      have hnp1 : noRemovablePairFrom p ops1 0 := ebScan_noPair p ops ops1 m hscan
      have hinv : ∀ l, l ∈ labelsDeclared ops1 → lmLookup m l = none :=
        ebScan_inv p ops ops1 m hscan hnd
      obtain ⟨hresolved, hkeysiso⟩ := resolveAll_post m m2 hres
      have hinv2 : ∀ l, l ∈ labelsDeclared ops1 → lmLookup m2 l = none := by
        intro l hl
        have hiso := hkeysiso l
        rw [hinv l hl] at hiso
        cases hq : lmLookup m2 l with
        | none => rfl
        | some v => rw [hq] at hiso; simp at hiso
      refine ⟨noPair_sweep p ops1 m2 hinv2 hnp1, ?_⟩
      intro l hl
      rw [opLabels_sweep] at hl
      obtain ⟨x, -, rfl⟩ := List.mem_map.mp hl
      exact replaceLabel_resolved m2 hresolved x

/-- Witness for C6: the collapser on `eb6Ops` with no protected labels
removes the `"10"` block, rewrites the branch to it, and the theorem applies. -/
theorem empty_block_collapse_witness :
    ((labelsDeclared eb6Ops).Nodup ∧
      _fix_empty_blocks [] eb6Ops =
        some ([Op.co_branch "20", Op.co_label "20", Op.co_load_name "x"],
          [("10", "20")])) ∧
    (noRemovablePairFrom []
        [Op.co_branch "20", Op.co_label "20", Op.co_load_name "x"] 0 ∧
      ∀ l, l ∈ opLabels [Op.co_branch "20", Op.co_label "20", Op.co_load_name "x"] →
        lmLookup [("10", "20")] l = none) :=
  ⟨⟨by decide, by decide⟩,
    empty_block_collapse [] eb6Ops
      [Op.co_branch "20", Op.co_label "20", Op.co_load_name "x"] [("10", "20")]
      (by decide) (by decide)⟩

/-- Witness for C9 at a concrete emission. -/
theorem branch_emit_invariant_witness :
    noBranchAfterBranch [Op.co_entrypoint "main" "compute" [], Op.co_load_name "a"] = true ∧
    emit [Op.co_entrypoint "main" "compute" [], Op.co_load_name "a"] (Op.co_branch "L1") =
      .ok [Op.co_entrypoint "main" "compute" [], Op.co_load_name "a", Op.co_branch "L1"] ∧
    noBranchAfterBranch
      [Op.co_entrypoint "main" "compute" [], Op.co_load_name "a", Op.co_branch "L1"] = true :=
  ⟨by decide, rfl,
   branch_emit_invariant.1 [Op.co_entrypoint "main" "compute" [], Op.co_load_name "a"]
     (Op.co_branch "L1")
     [Op.co_entrypoint "main" "compute" [], Op.co_load_name "a", Op.co_branch "L1"]
     (by decide) rfl⟩

end SpirvPy
